import Mathlib

/-!
# Verification of the cultivate daemon against its specification

Shallow embedding of the cultivate content-addressed object store, mount
store, FUSE adapter and RPC backend (Rust sources under `src/`), together
with proofs and refutations of the frozen specification claims.

Machine integers are modelled as `Nat` (with explicit `% 2^w` where the
source can overflow); byte strings are `List Nat` with each element a byte
value; fallible operations return `Option`/`Except`.  Rust `panic!`,
`unwrap` on `None` and `todo!()` paths are modelled by `Option` results
(`none` = panic) or, where a claim's hypotheses rule the path out, by a
default that the hypotheses make unreachable (noted at each definition).
-/

namespace Cultivate

/-- Byte strings (`Vec<u8>`, `&[u8]`): each element is a byte value. -/
abbrev Bytes := List Nat

/-! ## Little-endian encodings (`to_le_bytes` in `content_hash.rs`) -/

/-- `k` little-endian bytes of `n`. -/
def leBytes : Nat → Nat → Bytes
  | 0, _ => []
  | k + 1, n => n % 256 :: leBytes k (n / 256)

/-- 8-byte little-endian encoding (`u64::to_le_bytes`). -/
def le64 (n : Nat) : Bytes := leBytes 8 n

/-- 4-byte little-endian encoding (`u32::to_le_bytes`). -/
def le32 (n : Nat) : Bytes := leBytes 4 n

/-- Two's-complement 32-bit representative of an `i32`. -/
def i32bits (i : Int) : Nat := (i % (2 ^ 32)).toNat

/-- Two's-complement 64-bit representative of an `i64`. -/
def i64bits (i : Int) : Nat := (i % (2 ^ 64)).toNat

/-- `i32::to_le_bytes`. -/
def le32i (i : Int) : Bytes := le32 (i32bits i)

/-- `i64::to_le_bytes`. -/
def le64i (i : Int) : Bytes := le64 (i64bits i)

/-! ## BLAKE3 (the `blake3` crate used by `content_hash.rs` and the
backend).  Modelled from the spec: the BLAKE3 digest algorithm, which the
repository takes from the external `blake3` crate; the definitions below
follow the published BLAKE3 specification (default 32-byte hash mode). -/

/-- The BLAKE3 initialisation vector. -/
def b3iv : List Nat :=
  [1779033703, 3144134277, 1013904242, 2773480762,
   1359893119, 2600822924, 528734635, 1541459225]

/-- Addition modulo 2^32. -/
def add32 (a b : Nat) : Nat := (a + b) % 4294967296

/-- Rotate a 32-bit word right by `n`. -/
def rotr32 (x n : Nat) : Nat := (x >>> n) ||| ((x <<< (32 - n)) % 4294967296)

/-- The BLAKE3 `g` quarter-round on state positions `a b c d` with message
words `mx my`. -/
def gmix (st : List Nat) (a b c d mx my : Nat) : List Nat :=
  let sa := add32 (add32 (st.get! a) (st.get! b)) mx
  let sd := rotr32 ((st.get! d).xor sa) 16
  let sc := add32 (st.get! c) sd
  let sb := rotr32 ((st.get! b).xor sc) 12
  let sa' := add32 (add32 sa sb) my
  let sd' := rotr32 (sd.xor sa') 8
  let sc' := add32 sc sd'
  let sb' := rotr32 (sb.xor sc') 7
  (((st.set a sa').set b sb').set c sc').set d sd'

/-- One BLAKE3 round: four column and four diagonal quarter-rounds. -/
def b3round (st m : List Nat) : List Nat :=
  let s1 := gmix st 0 4 8 12 (m.get! 0) (m.get! 1)
  let s2 := gmix s1 1 5 9 13 (m.get! 2) (m.get! 3)
  let s3 := gmix s2 2 6 10 14 (m.get! 4) (m.get! 5)
  let s4 := gmix s3 3 7 11 15 (m.get! 6) (m.get! 7)
  let s5 := gmix s4 0 5 10 15 (m.get! 8) (m.get! 9)
  let s6 := gmix s5 1 6 11 12 (m.get! 10) (m.get! 11)
  let s7 := gmix s6 2 7 8 13 (m.get! 12) (m.get! 13)
  gmix s7 3 4 9 14 (m.get! 14) (m.get! 15)

/-- The BLAKE3 message-word permutation applied between rounds. -/
def b3permute (m : List Nat) : List Nat :=
  [m.get! 2, m.get! 6, m.get! 3, m.get! 10, m.get! 7, m.get! 0,
   m.get! 4, m.get! 13, m.get! 1, m.get! 11, m.get! 12, m.get! 5,
   m.get! 9, m.get! 14, m.get! 15, m.get! 8]

/-- The BLAKE3 compression function: 8-word chaining value, 16 message
words, 64-bit counter, block length and flags; yields the 16-word output. -/
def b3compress (cv block : List Nat) (counter blockLen flags : Nat) : List Nat :=
  let st0 := cv ++ b3iv.take 4 ++
    [counter % 4294967296, counter / 4294967296 % 4294967296, blockLen, flags]
  let s1 := b3round st0 block
  let m1 := b3permute block
  let s2 := b3round s1 m1
  let m2 := b3permute m1
  let s3 := b3round s2 m2
  let m3 := b3permute m2
  let s4 := b3round s3 m3
  let m4 := b3permute m3
  let s5 := b3round s4 m4
  let m5 := b3permute m4
  let s6 := b3round s5 m5
  let m6 := b3permute m5
  let s7 := b3round s6 m6
  ((List.range 8).map fun i => (s7.get! i).xor (s7.get! (i + 8))) ++
    ((List.range 8).map fun i => (s7.get! (i + 8)).xor (cv.get! i))

/-- The 16 little-endian message words of a block (zero-padded to 64
bytes; `List.get!` defaults absent positions to `0`). -/
def blockWords (b : Bytes) : List Nat :=
  (List.range 16).map fun i =>
    b.get! (4 * i) + 256 * b.get! (4 * i + 1) +
      65536 * b.get! (4 * i + 2) + 16777216 * b.get! (4 * i + 3)

/-- Split a byte string into pieces of at most `n` bytes (fuel-driven;
`fuel = l.length` always suffices).  An empty input yields `[[]]`. -/
def splitEveryGo (n : Nat) : Nat → Bytes → List Bytes
  | 0, l => [l]
  | fuel + 1, l => if l.length ≤ n then [l] else l.take n :: splitEveryGo n fuel (l.drop n)

/-- The ≤64-byte blocks of a ≤1024-byte chunk. -/
def chunkBlocks (c : Bytes) : List Bytes := splitEveryGo 64 c.length c

/-- The ≤1024-byte chunks of the input. -/
def inputChunks (s : Bytes) : List Bytes := splitEveryGo 1024 s.length s

/-- Compress the blocks of one chunk.  `chunkIdx` is the chunk counter,
`lastFlags` the flags added on the final block (`CHUNK_END`, plus `ROOT`
for a single-chunk tree), `first` marks the `CHUNK_START` block. -/
def chunkGo (chunkIdx lastFlags : Nat) (cv : List Nat) (first : Bool) :
    List Bytes → List Nat
  | [] => cv
  | [b] =>
    (b3compress cv (blockWords b) chunkIdx b.length
      ((if first then 1 else 0) + lastFlags)).take 8
  | b :: rest =>
    chunkGo chunkIdx lastFlags
      ((b3compress cv (blockWords b) chunkIdx b.length (if first then 1 else 0)).take 8)
      false rest

/-- Chaining value of a parent node over two child chaining values. -/
def parentCV (l r : List Nat) : List Nat :=
  (b3compress b3iv (l ++ r) 0 64 4).take 8

/-- Chaining values of all chunks, counted from `i`. -/
def chunkCVsGo (i : Nat) : List Bytes → List (List Nat)
  | [] => []
  | c :: rest => chunkGo i 2 b3iv true (chunkBlocks c) :: chunkCVsGo (i + 1) rest

/-- Combine chunk chaining values into one subtree chaining value; the
left subtree takes the largest power of two of chunks strictly below the
total (fuel-driven; `fuel = cvs.length` suffices). -/
def combineGo : Nat → List (List Nat) → List Nat
  | 0, cvs => cvs.get! 0
  | fuel + 1, cvs =>
    match cvs with
    | [] => []
    | [cv] => cv
    | cvs =>
      let p := 2 ^ Nat.log2 (cvs.length - 1)
      parentCV (combineGo fuel (cvs.take p)) (combineGo fuel (cvs.drop p))

/-- The eight 32-bit words of the BLAKE3 digest of `input`. -/
def blake3Words (input : Bytes) : List Nat :=
  match inputChunks input with
  | [c] => chunkGo 0 10 b3iv true (chunkBlocks c)
  | chunks =>
    let cvs := chunkCVsGo 0 chunks
    let p := 2 ^ Nat.log2 (cvs.length - 1)
    (b3compress b3iv (combineGo cvs.length (cvs.take p) ++ combineGo cvs.length (cvs.drop p))
      0 64 12).take 8

/-- The 32-byte BLAKE3 digest of `input` (`blake3::hash(input).as_bytes()`). -/
def blake3Bytes (input : Bytes) : Bytes :=
  (blake3Words input).foldr (fun w acc => le32 w ++ acc) []

/-! ## Canonical content encodings (`daemon/src/content_hash.rs`)

The `ContentHash` impls feed the hasher a canonical byte stream; each
`update` call appends bytes, so the stream is modelled as the byte string
an object contributes. -/

/-- `impl ContentHash for [T]` / `Vec<u8>` / `String` at element type `u8`:
8-byte little-endian length, then the bytes. -/
def chBytes (b : Bytes) : Bytes := le64 b.length ++ b

/-- `impl ContentHash for bool`: one byte `0x00`/`0x01`. -/
def chBool (b : Bool) : Bytes := [if b then 1 else 0]

/-- `impl ContentHash for i32`: little-endian fixed width. -/
def chI32 (i : Int) : Bytes := le32i i

/-- `impl ContentHash for i64`: little-endian fixed width. -/
def chI64 (i : Int) : Bytes := le64i i

/-- `impl ContentHash for Option<i32>`: `0x00`, or `0x01` then the value. -/
def chOptI32 : Option Int → Bytes
  | none => [0]
  | some x => 1 :: chI32 x

/-- `impl ContentHash for Vec<Option<i32>>`: 8-byte little-endian length,
then each element. -/
def chVecOptI32 (v : List (Option Int)) : Bytes :=
  le64 v.length ++ v.foldr (fun x acc => chOptI32 x ++ acc) []

/-- The struct `Foo { x: Vec<Option<i32>>, y: i64 }` from
`test_consistent_hashing`: the `content_hash!` macro hashes the fields in
declared order. -/
def chFoo (x : List (Option Int)) (y : Int) : Bytes := chVecOptI32 x ++ chI64 y

/-- The digest the snapshot test `test_consistent_hashing` pins
(`0b96f17e2aeed714583d62bca1898d577ebc2eff5d15fa03feb8de2785632aa0`). -/
def fooExpectedDigest : Bytes :=
  [11, 150, 241, 126, 42, 238, 215, 20, 88, 61, 98, 188, 161, 137, 141, 87,
   126, 188, 46, 255, 93, 21, 250, 3, 254, 184, 222, 39, 133, 99, 42, 160]

set_option maxRecDepth 10000 in
/-- C4: hashing `Foo { x: [None, Some(42)], y: 17 }` under the canonical
encoding rules yields exactly the snapshot digest. -/
theorem c4_hash_consistency_snapshot :
    blake3Bytes (chFoo [none, some 42] 17) = fooExpectedDigest := by
  decide

/-! ## Association lists (model of `std::collections::HashMap`)

`HashMap::insert` replaces the value of an existing key; lookups and
insertions are all the claims use, so iteration order is irrelevant. -/

/-- `HashMap::get` / `BTreeMap::get`. -/
def alget {κ α : Type} [DecidableEq κ] (k : κ) : List (κ × α) → Option α
  | [] => none
  | (k', v) :: rest => if k' = k then some v else alget k rest

/-- `HashMap::insert` / `BTreeMap::insert` (replace-or-append; the claims
depend only on lookup, insertion and size, never on iteration order). -/
def alset {κ α : Type} [DecidableEq κ] (k : κ) (v : α) : List (κ × α) → List (κ × α)
  | [] => [(k, v)]
  | (k', v') :: rest => if k' = k then (k, v) :: rest else (k', v') :: alset k v rest

/-- `BTreeMap::remove`. -/
def alremove {κ α : Type} [DecidableEq κ] (k : κ) : List (κ × α) → List (κ × α)
  | [] => []
  | (k', v') :: rest => if k' = k then rest else (k', v') :: alremove k rest

theorem alget_alset_self {κ α : Type} [DecidableEq κ] (k : κ) (v : α) (l : List (κ × α)) :
    alget k (alset k v l) = some v := by
  induction l with
  | nil => simp [alget, alset]
  | cons hd tl ih =>
    by_cases h : hd.1 = k <;> simp [alget, alset, h, ih]

theorem alset_idem {κ α : Type} [DecidableEq κ] (k : κ) (v : α) (l : List (κ × α)) :
    alset k v (alset k v l) = alset k v l := by
  induction l with
  | nil => simp [alset]
  | cons hd tl ih =>
    by_cases h : hd.1 = k <;> simp [alset, h, ih]

theorem alget_alset_ne {κ α : Type} [DecidableEq κ] (k k' : κ) (v : α) (l : List (κ × α))
    (h : k ≠ k') : alget k' (alset k v l) = alget k' l := by
  induction l with
  | nil => simp [alget, alset, h]
  | cons hd tl ih =>
    obtain ⟨a, b⟩ := hd
    by_cases h' : a = k
    · subst h'
      simp [alget, alset, h]
    · simp [alget, alset, h', ih]

/-! ## Object store (`daemon-old/src/store.rs`)

Tree entry names are Rust `String`s, modelled as their UTF-8 bytes. -/

/-- `store.rs` `TreeEntry`. -/
inductive TreeEntry where
  | file (id : Bytes) (executable : Bool)
  | treeId (id : Bytes)
  | symlinkId (id : Bytes)
  | conflictId (id : Bytes)
  deriving DecidableEq, Repr

/-- `impl ContentHash for TreeEntry`: one tag byte (`b'0'`/`b'1'`/`b'2'`),
then the length-prefixed id (the `[T]` impl) and remaining fields; the
`ConflictId` arm is `todo!()`, i.e. a panic, modelled as `none`. -/
def TreeEntry.chEnc : TreeEntry → Option Bytes
  | .file id ex => some ([48] ++ chBytes id ++ chBool ex)
  | .treeId id => some ([49] ++ chBytes id)
  | .symlinkId id => some ([50] ++ chBytes id)
  | .conflictId _ => none

/-- `store.rs` `File`. -/
structure File where
  content : Bytes
  deriving DecidableEq, Repr

/-- `store.rs` `Symlink` (target `String` as UTF-8 bytes). -/
structure Symlink where
  target : Bytes
  deriving DecidableEq, Repr

/-- `store.rs` `Tree`: ordered `(name, entry)` pairs. -/
structure Tree where
  entries : List (Bytes × TreeEntry)
  deriving DecidableEq, Repr

/-- Canonical encoding of tree entries in order: each contributes the
length-prefixed name (`String` impl) then the entry encoding. -/
def chEntries : List (Bytes × TreeEntry) → Option Bytes
  | [] => some []
  | (n, e) :: rest => do
    let eb ← e.chEnc
    let rb ← chEntries rest
    return chBytes n ++ eb ++ rb

/-- `File::get_hash`: BLAKE3 of the canonical encoding (the
`content_hash!` macro hashes the single `content` field). -/
def File.getHash (f : File) : Bytes := blake3Bytes (chBytes f.content)

/-- `Symlink::get_hash`. -/
def Symlink.getHash (s : Symlink) : Bytes := blake3Bytes (chBytes s.target)

/-- `Tree::get_hash`: BLAKE3 of the `Vec<(String, TreeEntry)>` canonical
encoding (8-byte length then the pairs); `none` when an entry's encoding
panics (`ConflictId`). -/
def Tree.getHash (t : Tree) : Option Bytes :=
  (chEntries t.entries).map fun bs => blake3Bytes (le64 t.entries.length ++ bs)

/-- Hash of the canonical empty tree. -/
def emptyTreeId : Bytes := blake3Bytes (le64 0)

/-- `store.rs` `Store` (daemon-old): per-kind maps plus the published
empty-tree id.  Commits are not stored by this version's `Store`. -/
structure Store where
  files : List (Bytes × File)
  symlinks : List (Bytes × Symlink)
  trees : List (Bytes × Tree)
  empty_tree_id : Bytes
  deriving DecidableEq, Repr

/-- `Store::new`: empty maps with the empty tree pre-inserted. -/
def Store.new : Store :=
  { files := [], symlinks := [], trees := [(emptyTreeId, Tree.mk [])],
    empty_tree_id := emptyTreeId }

/-- `Store::get_empty_tree_id`. -/
def Store.get_empty_tree_id (s : Store) : Bytes := s.empty_tree_id

/-- `Store::get_file`. -/
def Store.get_file (s : Store) (id : Bytes) : Option File := alget id s.files

/-- `Store::write_file`: insert under the content hash, return the hash. -/
def Store.write_file (s : Store) (f : File) : Bytes × Store :=
  (f.getHash, { s with files := alset f.getHash f s.files })

/-- `Store::get_symlink`. -/
def Store.get_symlink (s : Store) (id : Bytes) : Option Symlink := alget id s.symlinks

/-- `Store::write_symlink`. -/
def Store.write_symlink (s : Store) (sl : Symlink) : Bytes × Store :=
  (sl.getHash, { s with symlinks := alset sl.getHash sl s.symlinks })

/-- `Store::get_tree`. -/
def Store.get_tree (s : Store) (id : Bytes) : Option Tree := alget id s.trees

/-- `Store::write_tree`; `none` models the `get_hash` panic on trees with
`ConflictId` entries. -/
def Store.write_tree (s : Store) (t : Tree) : Option (Bytes × Store) :=
  t.getHash.map fun h => (h, { s with trees := alset h t s.trees })

/-- C1: for every file, symlink, and tree written to the object store,
reading back the returned id yields the object unchanged, and writing the
identical content again returns the same id and leaves the store state
unchanged. -/
theorem c1_store_write_read_idempotent (s : Store) (f : File) (sl : Symlink)
    (t : Tree) (tid : Bytes) (s' : Store) :
    ((s.write_file f).2.get_file (s.write_file f).1 = some f ∧
      (s.write_file f).2.write_file f = ((s.write_file f).1, (s.write_file f).2)) ∧
    ((s.write_symlink sl).2.get_symlink (s.write_symlink sl).1 = some sl ∧
      (s.write_symlink sl).2.write_symlink sl =
        ((s.write_symlink sl).1, (s.write_symlink sl).2)) ∧
    (s.write_tree t = some (tid, s') →
      s'.get_tree tid = some t ∧ s'.write_tree t = some (tid, s')) := by
  refine ⟨⟨?_, ?_⟩, ⟨?_, ?_⟩, ?_⟩
  · simp [Store.write_file, Store.get_file, alget_alset_self]
  · simp [Store.write_file, alset_idem]
  · simp [Store.write_symlink, Store.get_symlink, alget_alset_self]
  · simp [Store.write_symlink, alset_idem]
  · intro h
    match hh : t.getHash with
    | none => simp [Store.write_tree, hh] at h
    | some htv =>
      simp [Store.write_tree, hh] at h
      obtain ⟨h1, h2⟩ := h
      subst h1 h2
      constructor
      · simp [Store.get_tree, alget_alset_self]
      · simp [Store.write_tree, hh, alset_idem]

instance : Inhabited Store := ⟨Store.new⟩

/-- A concrete one-entry tree used as the C1 witness input. -/
def c1Tree : Tree := Tree.mk [([97], TreeEntry.file (List.replicate 32 0) false)]

/-- Result of writing `c1Tree` into a fresh store. -/
def c1Written : Bytes × Store := (Store.new.write_tree c1Tree).get!

set_option maxRecDepth 10000 in
/-- C1 witness: the round-trip and idempotence conclusions at a concrete
store, file, symlink and one-entry tree. -/
theorem c1_store_write_read_idempotent_witness :
    c1Written.2.get_tree c1Written.1 = some c1Tree ∧
      c1Written.2.write_tree c1Tree = some c1Written := by
  have h : Store.new.write_tree c1Tree = some (c1Written.1, c1Written.2) := by decide
  exact (c1_store_write_read_idempotent Store.new (File.mk [104, 105])
    (Symlink.mk [97]) c1Tree c1Written.1 c1Written.2).2.2 h

/-! ## Wire messages and protobuf encoding (`proto` crate, §6)

Modelled from the spec: the `.proto` message definitions (the `proto`
crate's `backend.proto` is generated code absent from `src/`); fields are
numbered 1.. in the order §6 lists them, and the byte-level rules are the
protocol-buffers wire format as produced by the `prost` encoder
(`Message::encode_to_vec`): varint tags `field<<3|wiretype`,
length-delimited bytes/strings/messages, default-valued singular fields
omitted, every element of a repeated field emitted. -/

/-- Protobuf base-128 varint (fuel-driven; 10 bytes suffice for `u64`). -/
def pvarintGo : Nat → Nat → Bytes
  | 0, n => [n % 128]
  | fuel + 1, n => if n < 128 then [n] else (n % 128 + 128) :: pvarintGo fuel (n / 128)

/-- Protobuf varint encoding. -/
def pvarint (n : Nat) : Bytes := pvarintGo 10 n

/-- A field tag: varint of `field_number << 3 | wire_type`. -/
def ptag (field wire : Nat) : Bytes := pvarint (field * 8 + wire)

/-- A length-delimited field (wire type 2). -/
def pLenDelim (field : Nat) (b : Bytes) : Bytes := ptag field 2 ++ pvarint b.length ++ b

/-- A singular `bytes`/`string` field: omitted when empty. -/
def pBytesOpt (field : Nat) (b : Bytes) : Bytes := if b = [] then [] else pLenDelim field b

/-- A repeated `bytes` field: every element emitted. -/
def pRepeatedBytes (field : Nat) (l : List Bytes) : Bytes :=
  l.foldr (fun b acc => pLenDelim field b ++ acc) []

/-- A `bool` field: omitted when `false`. -/
def pBool (field : Nat) (b : Bool) : Bytes := if b then ptag field 0 ++ [1] else []

/-- An `int64` field: varint of the 64-bit two's complement, omitted when 0. -/
def pInt64 (field : Nat) (i : Int) : Bytes :=
  if i = 0 then [] else ptag field 0 ++ pvarint (i64bits i)

/-- An `int32` field: negative values are sign-extended to 64 bits. -/
def pInt32 (field : Nat) (i : Int) : Bytes :=
  if i = 0 then [] else ptag field 0 ++ pvarint (i64bits i)

/-- An embedded-message field: omitted when absent. -/
def pMessageOpt {α : Type} (field : Nat) (enc : α → Bytes) : Option α → Bytes
  | none => []
  | some x => pLenDelim field (enc x)

/-- Wire message `File { data: bytes }`. -/
structure ProtoFile where
  data : Bytes
  deriving DecidableEq, Repr

/-- Wire message `Symlink { target: string }` (UTF-8 bytes). -/
structure ProtoSymlink where
  target : Bytes
  deriving DecidableEq, Repr

/-- Wire message `Timestamp { millis_since_epoch: int64, tz_offset: int32 }`. -/
structure PTimestamp where
  millis : Int
  tz : Int
  deriving DecidableEq, Repr

/-- Wire message `Signature { name: string, email: string, timestamp }`. -/
structure PSignature where
  name : Bytes
  email : Bytes
  timestamp : Option PTimestamp
  deriving DecidableEq, Repr

/-- Wire message `Commit` with the fields of §6. -/
structure ProtoCommit where
  parents : List Bytes
  predecessors : List Bytes
  rootTree : List Bytes
  usesTreeConflictFormat : Bool
  changeId : Bytes
  description : Bytes
  author : Option PSignature
  committer : Option PSignature
  secureSig : Option Bytes
  deriving DecidableEq, Repr

/-- `prost` encoding of `File`. -/
def protoEncodeFile (f : ProtoFile) : Bytes := pBytesOpt 1 f.data

/-- `prost` encoding of `Symlink`. -/
def protoEncodeSymlink (s : ProtoSymlink) : Bytes := pBytesOpt 1 s.target

/-- `prost` encoding of `Timestamp`. -/
def protoEncodeTimestamp (t : PTimestamp) : Bytes := pInt64 1 t.millis ++ pInt32 2 t.tz

/-- `prost` encoding of `Signature`. -/
def protoEncodeSignature (s : PSignature) : Bytes :=
  pBytesOpt 1 s.name ++ pBytesOpt 2 s.email ++
    pMessageOpt 3 protoEncodeTimestamp s.timestamp

/-- `prost` encoding of `Commit` (`commit.encode_to_vec()`). -/
def protoEncodeCommit (c : ProtoCommit) : Bytes :=
  pRepeatedBytes 1 c.parents ++ pRepeatedBytes 2 c.predecessors ++
    pRepeatedBytes 3 c.rootTree ++ pBool 4 c.usesTreeConflictFormat ++
    pBytesOpt 5 c.changeId ++ pBytesOpt 6 c.description ++
    pMessageOpt 7 protoEncodeSignature c.author ++
    pMessageOpt 8 protoEncodeSignature c.committer ++
    (match c.secureSig with | none => [] | some sig => pLenDelim 9 sig)

/-! ## RPC backend service (`daemon/src/service/backend.rs`)

The service's store keeps the decoded wire messages for files, symlinks
and commits, and converted `store::Tree` values for trees (`write_tree`
converts the request and delegates to `Store::write_tree`).  The request
proto `Tree` is taken already converted (the `From<proto::Tree>` impl maps
entries one-to-one). -/

/-- gRPC reply status, as produced by `tonic::Status` constructors. -/
inductive GrpcStatus where
  | internal (msg : String)
  deriving DecidableEq, Repr

/-- The object maps the backend service operates on. -/
structure BackendState where
  files : List (Bytes × ProtoFile)
  symlinks : List (Bytes × ProtoSymlink)
  commits : List (Bytes × ProtoCommit)
  trees : List (Bytes × Tree)
  deriving DecidableEq, Repr

/-- A fresh backend state. -/
def BackendState.empty : BackendState := ⟨[], [], [], []⟩

/-- `BackendService::write_file`: id is the BLAKE3 of the message's
protobuf wire bytes (`blake3::hash(&file.encode_to_vec())`). -/
def writeFileRpc (f : ProtoFile) (st : BackendState) : Bytes × BackendState :=
  let id := blake3Bytes (protoEncodeFile f)
  (id, { st with files := alset id f st.files })

/-- `BackendService::read_file` (`unwrap` on a missing id panics: `none`). -/
def readFileRpc (id : Bytes) (st : BackendState) : Option ProtoFile := alget id st.files

/-- `BackendService::write_symlink`. -/
def writeSymlinkRpc (s : ProtoSymlink) (st : BackendState) : Bytes × BackendState :=
  let id := blake3Bytes (protoEncodeSymlink s)
  (id, { st with symlinks := alset id s st.symlinks })

/-- `BackendService::read_symlink`. -/
def readSymlinkRpc (id : Bytes) (st : BackendState) : Option ProtoSymlink :=
  alget id st.symlinks

/-- `BackendService::write_tree`: converts the request and delegates to
`Store::write_tree`, so the id is the canonical-encoding hash; `none`
models the panic on `ConflictId` entries. -/
def writeTreeRpc (t : Tree) (st : BackendState) : Option (Bytes × BackendState) :=
  t.getHash.map fun h => (h, { st with trees := alset h t st.trees })

/-- `BackendService::read_tree`. -/
def readTreeRpc (id : Bytes) (st : BackendState) : Option Tree := alget id st.trees

/-- `BackendService::write_commit`: rejects an empty parents list with
`Status::internal`, else stores under the BLAKE3 of the wire bytes. -/
def writeCommitRpc (c : ProtoCommit) (st : BackendState) :
    Except GrpcStatus (Bytes × BackendState) :=
  if c.parents = [] then
    .error (.internal "Cannot write a commit with no parents")
  else
    let id := blake3Bytes (protoEncodeCommit c)
    .ok (id, { st with commits := alset id c st.commits })

/-- `BackendService::read_commit` (`expect` on a missing id panics: `none`). -/
def readCommitRpc (id : Bytes) (st : BackendState) : Option ProtoCommit :=
  alget id st.commits

/-- The id §4.1 prescribes for a `File`: BLAKE3 of the canonical content
encoding (8-byte little-endian length, then the bytes).  Spec-side
definition for the refinement claim C2, following the spec's words. -/
def specFileIdOf (data : Bytes) : Bytes := blake3Bytes (le64 data.length ++ data)

set_option maxRecDepth 10000 in
/-- C2 counterexample: for the file with content `[0]`, the id returned by
the RPC `write_file` is the hash of the protobuf wire bytes and differs
from the BLAKE3 of the object's canonical content encoding under the §4.1
rules. -/
theorem c2_id_is_not_canonical_hash_counterexample :
    (writeFileRpc (ProtoFile.mk [0]) BackendState.empty).1 ≠ specFileIdOf [0] := by
  decide

/-- C2 amended: the RPC `write_tree` id is the BLAKE3 of the canonical
content encoding (as implemented: ASCII-digit entry tags), while the RPC
`write_file`, `write_symlink` and `write_commit` ids are the BLAKE3 of the
protobuf wire bytes of the request message. -/
theorem c2_rpc_id_encoding_amended (f : ProtoFile) (s : ProtoSymlink)
    (c : ProtoCommit) (t : Tree) (st : BackendState) (tid : Bytes)
    (st' : BackendState) :
    (writeFileRpc f st).1 = blake3Bytes (protoEncodeFile f) ∧
    (writeSymlinkRpc s st).1 = blake3Bytes (protoEncodeSymlink s) ∧
    (c.parents ≠ [] →
      writeCommitRpc c st =
        .ok (blake3Bytes (protoEncodeCommit c),
          { st with commits := alset (blake3Bytes (protoEncodeCommit c)) c st.commits })) ∧
    (writeTreeRpc t st = some (tid, st') →
      ∃ bs, chEntries t.entries = some bs ∧
        tid = blake3Bytes (le64 t.entries.length ++ bs)) := by
  refine ⟨rfl, rfl, fun h => by simp [writeCommitRpc, h], fun h => ?_⟩
  match hc : chEntries t.entries with
  | none => simp [writeTreeRpc, Tree.getHash, hc] at h
  | some bs =>
    refine ⟨bs, rfl, ?_⟩
    simp [writeTreeRpc, Tree.getHash, hc] at h
    exact h.1.symm

instance : Inhabited BackendState := ⟨BackendState.empty⟩

/-- A commit whose only parent is the 16-byte zero (root) id, as in the
`write_commit_parents` test. -/
def rootParentCommit : ProtoCommit :=
  { parents := [List.replicate 16 0], predecessors := [], rootTree := [],
    usesTreeConflictFormat := false, changeId := [], description := [],
    author := none, committer := none, secureSig := none }

set_option maxRecDepth 10000 in
/-- C2 amended witness: the write-commit and write-tree conclusions at a
concrete commit and the empty tree. -/
theorem c2_rpc_id_encoding_amended_witness :
    (writeCommitRpc rootParentCommit BackendState.empty =
      .ok (blake3Bytes (protoEncodeCommit rootParentCommit),
        { BackendState.empty with
            commits := alset (blake3Bytes (protoEncodeCommit rootParentCommit))
              rootParentCommit BackendState.empty.commits })) ∧
    ∃ bs, chEntries (Tree.mk []).entries = some bs ∧
      (writeTreeRpc (Tree.mk []) BackendState.empty).get!.1 =
        blake3Bytes (le64 (Tree.mk []).entries.length ++ bs) := by
  have h := c2_rpc_id_encoding_amended (ProtoFile.mk [0]) (ProtoSymlink.mk [97])
    rootParentCommit (Tree.mk []) BackendState.empty
    (writeTreeRpc (Tree.mk []) BackendState.empty).get!.1
    (writeTreeRpc (Tree.mk []) BackendState.empty).get!.2
  exact ⟨h.2.2.1 (by decide), h.2.2.2 (by decide)⟩

/-- The backend state after a successful `write_commit`. -/
def commitStored (c : ProtoCommit) (st : BackendState) : BackendState :=
  { st with commits := alset (blake3Bytes (protoEncodeCommit c)) c st.commits }

/-- C3: `write_commit` fails with the internal-status (§7 maps
InvalidInput to INTERNAL) error for every commit with an empty parents
list; for every commit with at least one parent it succeeds and the commit
round-trips unchanged through `read_commit` of the returned id. -/
theorem c3_write_commit_parents (c : ProtoCommit) (st : BackendState) :
    (c.parents = [] →
      writeCommitRpc c st = .error (.internal "Cannot write a commit with no parents")) ∧
    (c.parents ≠ [] →
      writeCommitRpc c st = .ok (blake3Bytes (protoEncodeCommit c), commitStored c st) ∧
        readCommitRpc (blake3Bytes (protoEncodeCommit c)) (commitStored c st) = some c) := by
  constructor
  · intro h
    simp [writeCommitRpc, h]
  · intro h
    exact ⟨by simp [writeCommitRpc, h, commitStored],
      by simp [readCommitRpc, commitStored, alget_alset_self]⟩

/-- A commit with an empty parents list. -/
def noParentCommit : ProtoCommit :=
  { parents := [], predecessors := [], rootTree := [],
    usesTreeConflictFormat := false, changeId := [], description := [],
    author := none, committer := none, secureSig := none }

set_option maxRecDepth 10000 in
/-- C3 witness: the rejection at a parentless commit and the round-trip at
a commit with the root id as parent. -/
theorem c3_write_commit_parents_witness :
    writeCommitRpc noParentCommit BackendState.empty =
      .error (.internal "Cannot write a commit with no parents") ∧
    readCommitRpc (blake3Bytes (protoEncodeCommit rootParentCommit))
      (commitStored rootParentCommit BackendState.empty) = some rootParentCommit := by
  exact ⟨(c3_write_commit_parents noParentCommit BackendState.empty).1 (by decide),
    ((c3_write_commit_parents rootParentCommit BackendState.empty).2 (by decide)).2⟩

/-! ## Mount store (`daemon-old/src/mount_store.rs`)

Inode and directory tables plus per-mount scalars.  `DirectoryDescriptor`
is a `BTreeMap`; the claims depend only on lookup, insertion, removal and
size, so it is modelled by the same association lists (iteration order is
irrelevant here).  Wall-clock timestamps (`time_now()`) are passed in as a
`now` argument. -/

/-- `mount_store.rs` `FileKind`. -/
inductive FileKind where
  | file
  | directory
  | symlink
  deriving DecidableEq, Repr

/-- `DirectoryDescriptor`: entry name → `(inode, kind)`. -/
abbrev Dir := List (Bytes × (Nat × FileKind))

/-- The name `"."`. -/
def dotB : Bytes := [46]

/-- The name `".."`. -/
def dotdotB : Bytes := [46, 46]

/-- `mount_store.rs` `InodeAttributes`. -/
structure InodeAttributes where
  inode : Nat
  hash : Option Bytes
  open_file_handles : Nat
  size : Nat
  last_accessed : Int × Nat
  last_modified : Int × Nat
  last_metadata_changed : Int × Nat
  kind : FileKind
  mode : Nat
  hardlinks : Nat
  uid : Nat
  gid : Nat
  xattrs : List (Bytes × Bytes)
  deriving DecidableEq, Repr

/-- `InodeAttributes::new`: fresh attributes with `mode = 0o777`,
`uid = gid = 0`, directory hardlinks 2 and file/symlink hardlinks 1, and
all three timestamps `now`. -/
def InodeAttributes.new (inode : Nat) (kind : FileKind) (size : Nat)
    (now : Int × Nat) : InodeAttributes :=
  { inode, hash := none, open_file_handles := 0, size,
    last_accessed := now, last_modified := now, last_metadata_changed := now,
    kind, mode := 511,
    hardlinks := match kind with
      | .file => 1
      | .directory => 2
      | .symlink => 1,
    uid := 0, gid := 0, xattrs := [] }

/-- `MountStore` state: inode table, directory table, monotonic inode
counter, and the per-mount scalars. -/
structure MountState where
  nodes : List (Nat × InodeAttributes)
  directories : List (Nat × Dir)
  next_inode : Nat
  op_id : Option Bytes
  workspace_id : Option Bytes
  tree_id : Bytes
  deriving DecidableEq, Repr

/-- `MountStore::new`: empty tables, counter 1, unset checkout scalars,
tree id initialised to the store's empty-tree id. -/
def MountState.new (s : Store) : MountState :=
  ⟨[], [], 1, none, none, s.get_empty_tree_id⟩

/-- `MountStore::allocate_inode`: `fetch_add(1)` returns the previous
counter value. -/
def MountState.allocate_inode (st : MountState) : Nat × MountState :=
  (st.next_inode, { st with next_inode := st.next_inode + 1 })

/-- `MountStore::set_inode`. -/
def MountState.set_inode (st : MountState) (attrs : InodeAttributes) : MountState :=
  { st with nodes := alset attrs.inode attrs st.nodes }

/-- `MountStore::get_inode`. -/
def MountState.get_inode (st : MountState) (ino : Nat) : Option InodeAttributes :=
  alget ino st.nodes

/-- `MountStore::set_directory_content`. -/
def MountState.set_directory_content (st : MountState) (ino : Nat) (d : Dir) : MountState :=
  { st with directories := alset ino d st.directories }

/-- `MountStore::get_directory_content`. -/
def MountState.get_directory_content (st : MountState) (ino : Nat) : Option Dir :=
  alget ino st.directories

/-- `MountStore::create_new_node`: allocate an inode, store fresh
attributes, return them. -/
def MountState.create_new_node (st : MountState) (kind : FileKind)
    (now : Int × Nat) : InodeAttributes × MountState :=
  let (ino, st1) := st.allocate_inode
  let attrs := InodeAttributes.new ino kind 0 now
  (attrs, st1.set_inode attrs)

/-- `MountStore::get_op_id` unwraps the option: `none` is the panic. -/
def MountState.get_op_id (st : MountState) : Option Bytes := st.op_id

/-- `MountStore::set_op_id`. -/
def MountState.set_op_id (st : MountState) (op : Bytes) : MountState :=
  { st with op_id := some op }

/-- `MountStore::get_workspace_id` unwraps the option: `none` is the panic. -/
def MountState.get_workspace_id (st : MountState) : Option Bytes := st.workspace_id

/-- `MountStore::set_workspace_id`. -/
def MountState.set_workspace_id (st : MountState) (ws : Bytes) : MountState :=
  { st with workspace_id := some ws }

/-! ### Tree materialization (`set_root_tree` / `insert_tree`)

`insert_tree` fetches each referenced tree from the object store and
recurses.  The recursion is embedded over the finite unfolding of the
stored object graph: an `ONode` records one named tree entry together
with, for sub-trees, the unfolded entries of the referenced tree.  The
`ForestResolves` hypothesis (used by the theorems) ties an unfolding to
the store contents the Rust code would fetch. -/

/-- A named tree entry with sub-trees unfolded. -/
inductive ONode where
  | fileN (name : Bytes) (id : Bytes) (executable : Bool)
  | symN (name : Bytes) (id : Bytes)
  | dirN (name : Bytes) (id : Bytes) (children : List ONode)

/-- The entry name of an unfolded node. -/
def ONode.name : ONode → Bytes
  | .fileN n _ _ => n
  | .symN n _ => n
  | .dirN n _ _ => n

/-- The `FileKind` the entry materializes as. -/
def ONode.kind : ONode → FileKind
  | .fileN _ _ _ => .file
  | .symN _ _ => .symlink
  | .dirN _ _ _ => .directory

/-- The `(name, TreeEntry)` pair a node presents in its parent tree. -/
def ONode.toEntry : ONode → Bytes × TreeEntry
  | .fileN n id ex => (n, .file id ex)
  | .symN n id => (n, .symlinkId id)
  | .dirN n id _ => (n, .treeId id)

/-- The surface `(name, entry)` list of an unfolded forest. -/
def forestToEntries (l : List ONode) : List (Bytes × TreeEntry) := l.map ONode.toEntry

/-- `MountStore::insert_file`: fetch the file (panic if absent — under the
resolution hypothesis that branch is unreachable and leaves the state
unchanged here), store attributes with the file's size and backing hash. -/
def insertFileOp (s : Store) (id : Bytes) (ino : Nat) (now : Int × Nat)
    (st : MountState) : MountState :=
  match s.get_file id with
  | some f =>
    st.set_inode { InodeAttributes.new ino .file f.content.length now with hash := some id }
  | none => st

/-- `MountStore::insert_symlink`: as `insert_file`, with the target length
as size. -/
def insertSymlinkOp (s : Store) (id : Bytes) (ino : Nat) (now : Int × Nat)
    (st : MountState) : MountState :=
  match s.get_symlink id with
  | some sl =>
    st.set_inode { InodeAttributes.new ino .symlink sl.target.length now with hash := some id }
  | none => st

/-- The entry loop of `MountStore::insert_tree`, with the recursive
`insert_tree` call for sub-trees inlined: for each entry allocate an
inode, materialize it, and record it in the accumulated descriptor `d`;
a sub-tree gets its own descriptor seeded with `"."`, then its attributes
and descriptor are stored. -/
def goForest (s : Store) (now : Int × Nat) : List ONode → Dir → MountState → Dir × MountState
  | [], d, st => (d, st)
  | .fileN name id _ :: rest, d, st =>
    let al := st.allocate_inode
    goForest s now rest (alset name (al.1, .file) d) (insertFileOp s id al.1 now al.2)
  | .symN name id :: rest, d, st =>
    let al := st.allocate_inode
    goForest s now rest (alset name (al.1, .symlink) d) (insertSymlinkOp s id al.1 now al.2)
  | .dirN name _ sub :: rest, d, st =>
    let al := st.allocate_inode
    let r := goForest s now sub (alset dotB (al.1, .directory) []) al.2
    goForest s now rest (alset name (al.1, .directory) d)
      ((r.2.set_inode (InodeAttributes.new al.1 .directory 0 now)).set_directory_content al.1 r.1)
  termination_by l => sizeOf l
  decreasing_by all_goals simp_wf <;> omega

/-- `MountStore::insert_tree` at inode `ino` over an unfolded tree. -/
def insertTree (s : Store) (now : Int × Nat) (children : List ONode) (ino : Nat)
    (st : MountState) : MountState :=
  let r := goForest s now children (alset dotB (ino, .directory) []) st
  (r.2.set_inode (InodeAttributes.new ino .directory 0 now)).set_directory_content ino r.1

/-- `MountStore::set_root_tree`: burn one inode, then materialize at
inode 1. -/
def setRootTree (s : Store) (now : Int × Nat) (children : List ONode)
    (st : MountState) : MountState :=
  let (_, st1) := st.allocate_inode
  insertTree s now children 1 st1

/-! ### Correspondence between a materialized mount store and the object
tree (claim C5), and the `"."` invariant (claim C7) -/

/-- The inode/directory tables of `st` materialize the unfolded forest `l`
inside descriptor `d`, every allocated inode lying in `[lo, hi)`: each
entry appears in `d` under its name with the matching kind, its inode is
in the table with the matching kind (files and symlinks backed by their
object hash), and sub-trees recursively own a descriptor whose `"."` maps
to themselves. -/
def matForest (st : MountState) (lo hi : Nat) : List ONode → Dir → Prop
  | [], _ => True
  | .fileN name id _ :: rest, d =>
    (∃ j a, alget name d = some (j, FileKind.file) ∧ lo ≤ j ∧ j < hi ∧
      st.get_inode j = some a ∧ a.kind = FileKind.file ∧ a.hash = some id) ∧
    matForest st lo hi rest d
  | .symN name id :: rest, d =>
    (∃ j a, alget name d = some (j, FileKind.symlink) ∧ lo ≤ j ∧ j < hi ∧
      st.get_inode j = some a ∧ a.kind = FileKind.symlink ∧ a.hash = some id) ∧
    matForest st lo hi rest d
  | .dirN name _ sub :: rest, d =>
    (∃ j a d', alget name d = some (j, FileKind.directory) ∧ lo ≤ j ∧ j < hi ∧
      st.get_inode j = some a ∧ a.kind = FileKind.directory ∧
      st.get_directory_content j = some d' ∧ alget dotB d' = some (j, FileKind.directory) ∧
      matForest st lo hi sub d') ∧
    matForest st lo hi rest d
  termination_by l => sizeOf l
  decreasing_by all_goals simp_wf <;> omega

/-- The store lookups the Rust `insert_tree` recursion performs all
succeed and return exactly the given unfolding. -/
def ForestResolves (s : Store) : List ONode → Prop
  | [] => True
  | .fileN _ id _ :: rest => (s.get_file id).isSome ∧ ForestResolves s rest
  | .symN _ id :: rest => (s.get_symlink id).isSome ∧ ForestResolves s rest
  | .dirN _ id sub :: rest =>
    s.get_tree id = some (Tree.mk (forestToEntries sub)) ∧
      ForestResolves s sub ∧ ForestResolves s rest
  termination_by l => sizeOf l
  decreasing_by all_goals simp_wf <;> omega

/-- Well-formed directory contents: within each directory the entry names
are pairwise distinct and none is `"."` (tree canonicalization is the
caller's responsibility per §3). -/
def ForestWF : List ONode → Prop
  | [] => True
  | .fileN name _ _ :: rest =>
    name ≠ dotB ∧ name ∉ rest.map ONode.name ∧ ForestWF rest
  | .symN name _ :: rest =>
    name ≠ dotB ∧ name ∉ rest.map ONode.name ∧ ForestWF rest
  | .dirN name _ sub :: rest =>
    name ≠ dotB ∧ name ∉ rest.map ONode.name ∧ ForestWF sub ∧ ForestWF rest
  termination_by l => sizeOf l
  decreasing_by all_goals simp_wf <;> omega

/-- `st'` agrees with `st` on every inode key in `[lo, hi)`. -/
def agreesIn (st st' : MountState) (lo hi : Nat) : Prop :=
  ∀ k, lo ≤ k → k < hi →
    st'.get_inode k = st.get_inode k ∧
      st'.get_directory_content k = st.get_directory_content k

/-- Every directory descriptor maps `"."` to its own inode as a
directory. -/
def DotOk (st : MountState) : Prop :=
  ∀ ino d, st.get_directory_content ino = some d →
    alget dotB d = some (ino, FileKind.directory)

theorem agreesIn_refl (st : MountState) (lo hi : Nat) : agreesIn st st lo hi :=
  fun _ _ _ => ⟨rfl, rfl⟩

theorem agreesIn_trans {st1 st2 st3 : MountState} {lo hi : Nat}
    (h1 : agreesIn st1 st2 lo hi) (h2 : agreesIn st2 st3 lo hi) :
    agreesIn st1 st3 lo hi := fun k hk1 hk2 =>
  ⟨(h2 k hk1 hk2).1.trans (h1 k hk1 hk2).1, (h2 k hk1 hk2).2.trans (h1 k hk1 hk2).2⟩

theorem agreesIn_shrink {st st' : MountState} {lo hi lo' hi' : Nat}
    (h : agreesIn st st' lo hi) (h1 : lo ≤ lo') (h2 : hi' ≤ hi) :
    agreesIn st st' lo' hi' := fun k hk1 hk2 =>
  h k (le_trans h1 hk1) (lt_of_lt_of_le hk2 h2)

theorem agreesIn_set_inode {st : MountState} {a : InodeAttributes} {lo hi : Nat}
    (h : a.inode < lo ∨ hi ≤ a.inode) : agreesIn st (st.set_inode a) lo hi := by
  intro k hk1 hk2
  refine ⟨?_, rfl⟩
  have hne : a.inode ≠ k := by omega
  simpa [MountState.set_inode, MountState.get_inode] using
    alget_alset_ne a.inode k a st.nodes hne

theorem agreesIn_set_dir {st : MountState} {ino : Nat} {d : Dir} {lo hi : Nat}
    (h : ino < lo ∨ hi ≤ ino) : agreesIn st (st.set_directory_content ino d) lo hi := by
  intro k hk1 hk2
  refine ⟨rfl, ?_⟩
  have hne : ino ≠ k := by omega
  simpa [MountState.set_directory_content, MountState.get_directory_content] using
    alget_alset_ne ino k d st.directories hne

theorem matForest_mono {st st' : MountState} {lo hi : Nat} {l : List ONode} {d : Dir} :
    matForest st lo hi l d → ∀ {lo' hi' : Nat}, agreesIn st st' lo hi →
      lo' ≤ lo → hi ≤ hi' → matForest st' lo' hi' l d := by
  induction l, d using matForest.induct st lo hi with
  | case1 d => intro _ lo' hi' _ _ _; simp [matForest]
  | case2 name id ex rest d ih =>
    intro h lo' hi' hag hlo hhi
    rw [matForest] at h ⊢
    obtain ⟨⟨j, a, h1, h2, h3, h4, h5, h6⟩, hrest⟩ := h
    refine ⟨⟨j, a, h1, by omega, by omega, ?_, h5, h6⟩, ih hrest hag hlo hhi⟩
    exact (hag j h2 h3).1.trans h4
  | case3 name id rest d ih =>
    intro h lo' hi' hag hlo hhi
    rw [matForest] at h ⊢
    obtain ⟨⟨j, a, h1, h2, h3, h4, h5, h6⟩, hrest⟩ := h
    refine ⟨⟨j, a, h1, by omega, by omega, ?_, h5, h6⟩, ih hrest hag hlo hhi⟩
    exact (hag j h2 h3).1.trans h4
  | case4 name id sub rest d ihsub ih =>
    intro h lo' hi' hag hlo hhi
    rw [matForest] at h ⊢
    obtain ⟨⟨j, a, d', h1, h2, h3, h4, h5, h6, h7, hsub⟩, hrest⟩ := h
    refine ⟨⟨j, a, d', h1, by omega, by omega, ?_, h5, ?_, h7,
      ihsub d' hsub hag hlo hhi⟩, ih hrest hag hlo hhi⟩
    · exact (hag j h2 h3).1.trans h4
    · exact (hag j h2 h3).2.trans h6

theorem forestWF_dot_not_mem {l : List ONode} (h : ForestWF l) :
    dotB ∉ l.map ONode.name := by
  induction l with
  | nil => simp
  | cons c rest ih =>
    cases c with
    | fileN name id ex =>
      rw [ForestWF] at h
      simp only [List.map_cons, List.mem_cons, not_or, ONode.name]
      exact ⟨fun hd => h.1 hd.symm, ih h.2.2⟩
    | symN name id =>
      rw [ForestWF] at h
      simp only [List.map_cons, List.mem_cons, not_or, ONode.name]
      exact ⟨fun hd => h.1 hd.symm, ih h.2.2⟩
    | dirN name id sub =>
      rw [ForestWF] at h
      simp only [List.map_cons, List.mem_cons, not_or, ONode.name]
      exact ⟨fun hd => h.1 hd.symm, ih h.2.2.2⟩

theorem alget_alset {κ α : Type} [DecidableEq κ] (k k' : κ) (v : α) (l : List (κ × α)) :
    alget k' (alset k v l) = if k = k' then some v else alget k' l := by
  by_cases h : k = k'
  · subst h
    simp [alget_alset_self]
  · simp [h, alget_alset_ne k k' v l h]

theorem MountState.get_set_inode (st : MountState) (a : InodeAttributes) (k : Nat) :
    (st.set_inode a).get_inode k = if a.inode = k then some a else st.get_inode k := by
  simp [MountState.set_inode, MountState.get_inode, alget_alset]

theorem MountState.get_dir_set_dir (st : MountState) (i : Nat) (d0 : Dir) (k : Nat) :
    (st.set_directory_content i d0).get_directory_content k =
      if i = k then some d0 else st.get_directory_content k := by
  simp [MountState.set_directory_content, MountState.get_directory_content, alget_alset]

theorem MountState.get_inode_set_dir (st : MountState) (i : Nat) (d0 : Dir) (k : Nat) :
    (st.set_directory_content i d0).get_inode k = st.get_inode k := rfl

theorem MountState.get_dir_set_inode (st : MountState) (a : InodeAttributes) (k : Nat) :
    (st.set_inode a).get_directory_content k = st.get_directory_content k := rfl

theorem MountState.alloc_fst (st : MountState) : st.allocate_inode.1 = st.next_inode := rfl

theorem MountState.alloc_next (st : MountState) :
    st.allocate_inode.2.next_inode = st.next_inode + 1 := rfl

theorem MountState.get_inode_alloc (st : MountState) (k : Nat) :
    st.allocate_inode.2.get_inode k = st.get_inode k := rfl

theorem MountState.get_dir_alloc (st : MountState) (k : Nat) :
    st.allocate_inode.2.get_directory_content k = st.get_directory_content k := rfl

theorem MountState.next_set_inode (st : MountState) (a : InodeAttributes) :
    (st.set_inode a).next_inode = st.next_inode := rfl

theorem MountState.next_set_dir (st : MountState) (i : Nat) (d0 : Dir) :
    (st.set_directory_content i d0).next_inode = st.next_inode := rfl

theorem MountState.op_alloc (st : MountState) : st.allocate_inode.2.op_id = st.op_id := rfl

theorem MountState.op_set_inode (st : MountState) (a : InodeAttributes) :
    (st.set_inode a).op_id = st.op_id := rfl

theorem MountState.op_set_dir (st : MountState) (i : Nat) (d0 : Dir) :
    (st.set_directory_content i d0).op_id = st.op_id := rfl

theorem MountState.ws_alloc (st : MountState) :
    st.allocate_inode.2.workspace_id = st.workspace_id := rfl

theorem MountState.ws_set_inode (st : MountState) (a : InodeAttributes) :
    (st.set_inode a).workspace_id = st.workspace_id := rfl

theorem MountState.ws_set_dir (st : MountState) (i : Nat) (d0 : Dir) :
    (st.set_directory_content i d0).workspace_id = st.workspace_id := rfl

theorem InodeAttributes.new_inode (i : Nat) (k : FileKind) (sz : Nat) (now : Int × Nat) :
    (InodeAttributes.new i k sz now).inode = i := rfl

theorem InodeAttributes.new_kind (i : Nat) (k : FileKind) (sz : Nat) (now : Int × Nat) :
    (InodeAttributes.new i k sz now).kind = k := rfl

attribute [simp] MountState.get_set_inode MountState.get_dir_set_dir
  MountState.get_inode_set_dir MountState.get_dir_set_inode MountState.alloc_fst
  MountState.alloc_next MountState.get_inode_alloc MountState.get_dir_alloc
  MountState.next_set_inode MountState.next_set_dir MountState.op_alloc
  MountState.op_set_inode MountState.op_set_dir MountState.ws_alloc
  MountState.ws_set_inode MountState.ws_set_dir InodeAttributes.new_inode
  InodeAttributes.new_kind

theorem DotOk_set_inode {st : MountState} {a : InodeAttributes} (h : DotOk st) :
    DotOk (st.set_inode a) := h

theorem DotOk_alloc {st : MountState} (h : DotOk st) : DotOk st.allocate_inode.2 := h

theorem DotOk_set_dir {st : MountState} {ino : Nat} {d0 : Dir} (h : DotOk st)
    (hd : alget dotB d0 = some (ino, FileKind.directory)) :
    DotOk (st.set_directory_content ino d0) := by
  intro ino' d'' hget
  rw [MountState.get_dir_set_dir] at hget
  by_cases he : ino = ino'
  · subst he
    simp only [if_pos rfl] at hget
    cases hget
    exact hd
  · rw [if_neg he] at hget
    exact h ino' d'' hget

theorem goForest_spec (s : Store) (now : Int × Nat) :
    ∀ (l : List ONode) (d : Dir) (st : MountState),
      ForestResolves s l → ForestWF l →
      st.next_inode ≤ (goForest s now l d st).2.next_inode ∧
      agreesIn st (goForest s now l d st).2 0 st.next_inode ∧
      (goForest s now l d st).2.op_id = st.op_id ∧
      (goForest s now l d st).2.workspace_id = st.workspace_id ∧
      (∀ nm, nm ∉ l.map ONode.name → alget nm (goForest s now l d st).1 = alget nm d) ∧
      matForest (goForest s now l d st).2 st.next_inode
        (goForest s now l d st).2.next_inode l (goForest s now l d st).1 ∧
      (DotOk st → DotOk (goForest s now l d st).2) := by
  intro l d st
  induction l, d, st using goForest.induct s now with
  | case1 d st =>
    intro _ _
    simp only [goForest]
    refine ⟨?_, agreesIn_refl _ _ _, ?_, ?_, ?_, ?_, fun h => h⟩ <;> simp [matForest]
  | case2 name id ex rest d st al ih =>
    intro hres hwf
    rw [ForestResolves] at hres
    rw [ForestWF] at hwf
    obtain ⟨f, hf⟩ := Option.isSome_iff_exists.mp hres.1
    have hal : al = st.allocate_inode := rfl
    rw [hal] at ih
    obtain ⟨ih1, ih2, ih3, ih4, ih5, ih6, ih7⟩ := ih hres.2 hwf.2.2
    simp only [insertFileOp, hf, MountState.next_set_inode, MountState.alloc_next,
      MountState.alloc_fst] at ih1 ih2 ih3 ih4 ih5 ih6 ih7
    simp only [goForest, insertFileOp, hf, MountState.alloc_fst]
    refine ⟨by omega, ?_, ih3.trans rfl, ih4.trans rfl, ?_, ?_, ?_⟩
    · refine agreesIn_trans ?hfa (agreesIn_shrink ih2 (le_refl 0) (by omega))
      intro k hk0 hk
      refine ⟨?_, rfl⟩
      rw [MountState.get_set_inode, MountState.get_inode_alloc,
        if_neg (by simp [InodeAttributes.new]; omega)]
    · intro nm hnm
      simp only [List.map_cons, ONode.name, List.mem_cons, not_or] at hnm
      rw [ih5 nm hnm.2]
      exact alget_alset_ne name nm _ d (fun h => hnm.1 h.symm)
    · rw [matForest]
      constructor
      · refine ⟨st.next_inode,
          { InodeAttributes.new st.next_inode .file f.content.length now with hash := some id },
          ?_, le_refl _, by omega, ?_, rfl, rfl⟩
        · rw [ih5 name hwf.2.1]
          exact alget_alset_self _ _ _
        · rw [(ih2 st.next_inode (Nat.zero_le _) (by omega)).1]
          rw [MountState.get_set_inode]
          exact if_pos (by simp [InodeAttributes.new])
      · exact matForest_mono ih6 (agreesIn_refl _ _ _) (by omega) (le_refl _)
    · intro hD
      exact ih7 hD
  | case3 name id rest d st al ih =>
    intro hres hwf
    rw [ForestResolves] at hres
    rw [ForestWF] at hwf
    obtain ⟨f, hf⟩ := Option.isSome_iff_exists.mp hres.1
    have hal : al = st.allocate_inode := rfl
    rw [hal] at ih
    obtain ⟨ih1, ih2, ih3, ih4, ih5, ih6, ih7⟩ := ih hres.2 hwf.2.2
    simp only [insertSymlinkOp, hf, MountState.next_set_inode, MountState.alloc_next,
      MountState.alloc_fst] at ih1 ih2 ih3 ih4 ih5 ih6 ih7
    simp only [goForest, insertSymlinkOp, hf, MountState.alloc_fst]
    refine ⟨by omega, ?_, ih3.trans rfl, ih4.trans rfl, ?_, ?_, ?_⟩
    · refine agreesIn_trans ?hfb (agreesIn_shrink ih2 (le_refl 0) (by omega))
      intro k hk0 hk
      refine ⟨?_, rfl⟩
      rw [MountState.get_set_inode, MountState.get_inode_alloc,
        if_neg (by simp [InodeAttributes.new]; omega)]
    · intro nm hnm
      simp only [List.map_cons, ONode.name, List.mem_cons, not_or] at hnm
      rw [ih5 nm hnm.2]
      exact alget_alset_ne name nm _ d (fun h => hnm.1 h.symm)
    · rw [matForest]
      constructor
      · refine ⟨st.next_inode,
          { InodeAttributes.new st.next_inode .symlink f.target.length now with hash := some id },
          ?_, le_refl _, by omega, ?_, rfl, rfl⟩
        · rw [ih5 name hwf.2.1]
          exact alget_alset_self _ _ _
        · rw [(ih2 st.next_inode (Nat.zero_le _) (by omega)).1]
          rw [MountState.get_set_inode]
          exact if_pos (by simp [InodeAttributes.new])
      · exact matForest_mono ih6 (agreesIn_refl _ _ _) (by omega) (le_refl _)
    · intro hD
      exact ih7 hD
  | case4 name id sub rest d st al r ihsub ihsub2 ih =>
    intro hres hwf
    rw [ForestResolves] at hres
    rw [ForestWF] at hwf
    have hal : al = st.allocate_inode := rfl
    have hr : r = goForest s now sub (alset dotB (st.allocate_inode.1, FileKind.directory) [])
        st.allocate_inode.2 := rfl
    rw [hal] at ihsub
    rw [hal, hr] at ih
    obtain ⟨is1, is2, is3, is4, is5, is6, is7⟩ := ihsub hres.2.1 hwf.2.2.1
    obtain ⟨ih1, ih2, ih3, ih4, ih5, ih6, ih7⟩ := ih hres.2.2 hwf.2.2.2
    simp only [MountState.next_set_inode, MountState.next_set_dir, MountState.alloc_next,
      MountState.alloc_fst] at is1 is2 is3 is4 is5 is6 is7 ih1 ih2 ih3 ih4 ih5 ih6 ih7
    simp only [goForest, MountState.alloc_fst]
    set Gs := goForest s now sub (alset dotB (st.next_inode, FileKind.directory) [])
      st.allocate_inode.2 with hGs
    set st3 := (Gs.2.set_inode (InodeAttributes.new st.next_inode FileKind.directory 0 now)).set_directory_content
      st.next_inode Gs.1 with hst3
    set G := goForest s now rest (alset name (st.next_inode, FileKind.directory) d) st3 with hG
    have hdotsub : alget dotB Gs.1 = some (st.next_inode, FileKind.directory) := by
      rw [is5 dotB (forestWF_dot_not_mem hwf.2.2.1)]
      exact alget_alset_self _ _ _
    have hagx : agreesIn Gs.2 st3 (st.next_inode + 1) Gs.2.next_inode := by
      intro k hk0 hk
      rw [hst3]
      constructor
      · rw [MountState.get_inode_set_dir, MountState.get_set_inode,
          if_neg (by simp [InodeAttributes.new]; omega)]
      · rw [MountState.get_dir_set_dir, if_neg (show ¬st.next_inode = k by omega),
          MountState.get_dir_set_inode]
    have hag0 : agreesIn st st3 0 st.next_inode := by
      have hB := agreesIn_shrink is2 (le_refl 0)
        (show st.next_inode ≤ st.next_inode + 1 by omega)
      have hC : agreesIn Gs.2 st3 0 st.next_inode := by
        intro k hk0 hk
        rw [hst3]
        constructor
        · rw [MountState.get_inode_set_dir, MountState.get_set_inode,
            if_neg (by simp [InodeAttributes.new]; omega)]
        · rw [MountState.get_dir_set_dir, if_neg (show ¬st.next_inode = k by omega),
            MountState.get_dir_set_inode]
      refine agreesIn_trans ?hfc (agreesIn_trans hB hC)
      intro k hk0 hk
      exact ⟨rfl, rfl⟩
    refine ⟨by omega, ?_, ?_, ?_, ?_, ?_, ?_⟩
    · exact agreesIn_trans hag0 (agreesIn_shrink ih2 (le_refl 0) (by omega))
    · rw [ih3, hst3, MountState.op_set_dir, MountState.op_set_inode, is3, MountState.op_alloc]
    · rw [ih4, hst3, MountState.ws_set_dir, MountState.ws_set_inode, is4, MountState.ws_alloc]
    · intro nm hnm
      simp only [List.map_cons, ONode.name, List.mem_cons, not_or] at hnm
      rw [ih5 nm hnm.2]
      exact alget_alset_ne name nm _ d (fun h => hnm.1 h.symm)
    · rw [matForest]
      constructor
      · refine ⟨st.next_inode, InodeAttributes.new st.next_inode .directory 0 now, Gs.1,
          ?_, le_refl _, by omega, ?_, rfl, ?_, hdotsub, ?_⟩
        · rw [ih5 name hwf.2.1]
          exact alget_alset_self _ _ _
        · rw [(ih2 st.next_inode (Nat.zero_le _) (by omega)).1, hst3,
            MountState.get_inode_set_dir, MountState.get_set_inode]
          exact if_pos (by simp [InodeAttributes.new])
        · rw [(ih2 st.next_inode (Nat.zero_le _) (by omega)).2, hst3,
            MountState.get_dir_set_dir]
          exact if_pos rfl
        · have step1 := matForest_mono is6 hagx (le_refl _) (le_refl _)
          exact matForest_mono step1 (agreesIn_shrink ih2 (Nat.zero_le _) (le_refl _))
            (by omega) (by omega)
      · exact matForest_mono ih6 (agreesIn_refl _ _ _) (by omega) (le_refl _)
    · intro hD
      refine ih7 ?_
      rw [hst3]
      exact DotOk_set_dir (DotOk_set_inode (is7 (DotOk_alloc hD))) hdotsub

/-- C5: on a fresh mount store, `set_root_tree` materializes the object
tree rooted at the given id: inode 1 becomes a directory whose descriptor
maps `"."` to itself, and (recursively, per `matForest`) every `(name,
entry)` pair of every tree appears in its directory's descriptor under
that name, mapped to a freshly allocated inode (≥ 2, below the final
counter) whose kind matches the entry variant. -/
theorem c5_set_root_tree_materializes (s : Store) (tid : Bytes)
    (children : List ONode) (now : Int × Nat)
    (htree : s.get_tree tid = some (Tree.mk (forestToEntries children)))
    (hres : ForestResolves s children) (hwf : ForestWF children) :
    ∃ a d, (setRootTree s now children (MountState.new s)).get_inode 1 = some a ∧
      a.kind = FileKind.directory ∧
      (setRootTree s now children (MountState.new s)).get_directory_content 1 = some d ∧
      alget dotB d = some (1, FileKind.directory) ∧
      matForest (setRootTree s now children (MountState.new s)) 2
        (setRootTree s now children (MountState.new s)).next_inode children d := by
  obtain ⟨s1, s2, s3, s4, s5, s6, s7⟩ := goForest_spec s now children
    (alset dotB (1, FileKind.directory) []) ((MountState.new s).allocate_inode.2) hres hwf
  simp only [setRootTree, insertTree]
  set Gs := goForest s now children (alset dotB (1, FileKind.directory) [])
    ((MountState.new s).allocate_inode.2) with hGs
  simp only [MountState.alloc_next] at s1 s2 s6
  have hnew1 : (MountState.new s).next_inode = 1 := rfl
  rw [hnew1] at s1 s2 s6
  refine ⟨InodeAttributes.new 1 .directory 0 now, Gs.1, ?_, rfl, ?_, ?_, ?_⟩
  · rw [MountState.get_inode_set_dir, MountState.get_set_inode]
    exact if_pos (by simp [InodeAttributes.new])
  · rw [MountState.get_dir_set_dir]
    exact if_pos rfl
  · rw [s5 dotB (forestWF_dot_not_mem hwf)]
    exact alget_alset_self _ _ _
  · have hagf : agreesIn Gs.2
        ((Gs.2.set_inode (InodeAttributes.new 1 FileKind.directory 0 now)).set_directory_content
          1 Gs.1) 2 Gs.2.next_inode := by
      intro k hk0 hk
      constructor
      · rw [MountState.get_inode_set_dir, MountState.get_set_inode,
          if_neg (by simp [InodeAttributes.new]; omega)]
      · rw [MountState.get_dir_set_dir, if_neg (show ¬(1 : Nat) = k by omega),
          MountState.get_dir_set_inode]
    have step := matForest_mono s6 hagf (le_refl _) (le_refl _)
    simpa only [MountState.next_set_dir, MountState.next_set_inode] using step

/-- A concrete two-level unfolded tree: directory `d` containing file `f`,
plus a symlink `s` at the root. -/
def c5Forest : List ONode :=
  [ONode.dirN [100] [7] [ONode.fileN [102] [9] false], ONode.symN [115] [8]]

/-- A store holding exactly the objects `c5Forest` references. -/
def c5Store : Store :=
  { files := [([9], File.mk [104])], symlinks := [([8], Symlink.mk [97])],
    trees := [([6], Tree.mk (forestToEntries c5Forest)),
              ([7], Tree.mk (forestToEntries [ONode.fileN [102] [9] false]))],
    empty_tree_id := emptyTreeId }

/-- C5 witness: the materialization conclusion at the concrete store and
tree, with every hypothesis discharged by computation. -/
theorem c5_set_root_tree_materializes_witness :
    ∃ a d, (setRootTree c5Store (0, 0) c5Forest (MountState.new c5Store)).get_inode 1 = some a ∧
      a.kind = FileKind.directory ∧
      (setRootTree c5Store (0, 0) c5Forest (MountState.new c5Store)).get_directory_content 1 =
        some d ∧
      alget dotB d = some (1, FileKind.directory) ∧
      matForest (setRootTree c5Store (0, 0) c5Forest (MountState.new c5Store)) 2
        (setRootTree c5Store (0, 0) c5Forest (MountState.new c5Store)).next_inode c5Forest d :=
  c5_set_root_tree_materializes c5Store [6] c5Forest (0, 0)
    (by decide)
    (by simp [c5Forest, ForestResolves, Store.get_file, Store.get_symlink, Store.get_tree,
      c5Store, alget])
    (by simp [c5Forest, ForestWF, dotB, ONode.name])

/-! ## FUSE adapter (`daemon/src/fs.rs`)

`fs.rs` operations over the mount store and object store.  Reply sinks
become `Except errno` results; `Option` wraps each operation, `none`
modelling a Rust panic (`unwrap`/`expect`/`todo!()`/failed `assert!`).
`Request` carries the caller's uid/gid; `now` stands for `time_now()`. -/

/-- `libc` errno values (Linux). -/
def EACCES : Nat := 13
def ENOENT : Nat := 2
def EEXIST : Nat := 17
def EBADF : Nat := 9
def ENOTEMPTY : Nat := 39
def EINVAL : Nat := 22
def ENOSYS : Nat := 38

/-- `libc` access-mask and mode bits (Linux). -/
def R_OK : Nat := 4
def W_OK : Nat := 2
def X_OK : Nat := 1
def S_ISUID : Nat := 2048
def S_ISGID : Nat := 1024
def S_IFMT : Nat := 61440
def S_IFREG : Nat := 32768
def S_IFLNK : Nat := 40960
def S_IFDIR : Nat := 16384
def RENAME_EXCHANGE : Nat := 2

/-- `fs.rs` file-handle permission bits. -/
def FILE_HANDLE_READ_BIT : Nat := 2 ^ 63
def FILE_HANDLE_WRITE_BIT : Nat := 2 ^ 62

/-- The caller identity of a FUSE `Request`. -/
structure Req where
  uid : Nat
  gid : Nat
  deriving DecidableEq, Repr

/-- `fs.rs` `check_access`.  The `i32` arithmetic never leaves `[0, 2^15]`
for the values involved, so `Nat` subtraction is exact (the subtrahend is
always a sub-mask of the minuend). -/
def check_access (file_uid file_gid : Nat) (file_mode : Nat) (uid gid : Nat)
    (access_mask : Nat) : Bool :=
  if access_mask = 0 then true
  else if uid = 0 then
    let m1 := access_mask &&& X_OK
    let m2 := m1 - (m1 &&& (file_mode >>> 6))
    let m3 := m2 - (m2 &&& (file_mode >>> 3))
    let m4 := m3 - (m3 &&& file_mode)
    m4 == 0
  else if uid = file_uid then (access_mask - (access_mask &&& (file_mode >>> 6))) == 0
  else if gid = file_gid then (access_mask - (access_mask &&& (file_mode >>> 3))) == 0
  else (access_mask - (access_mask &&& file_mode)) == 0

/-- `fs.rs` `creation_gid`. -/
def creation_gid (parent : InodeAttributes) (gid : Nat) : Nat :=
  if parent.mode &&& S_ISGID ≠ 0 then parent.gid else gid

/-- `CultivateFS::allocate_next_file_handle`: `fetch_add` yields the
previous counter `c`; the assertion `fh < min(READ_BIT, WRITE_BIT)` panics
(`none`) when the counter has overflowed into the permission bits;
otherwise the handle is the counter with bit 63 set when `read` and
bit 62 set when `write`, and the counter advances. -/
def allocate_next_file_handle (c : Nat) (read write : Bool) : Option (Nat × Nat) :=
  if c < FILE_HANDLE_READ_BIT.min FILE_HANDLE_WRITE_BIT then
    some ((c ||| (if read then FILE_HANDLE_READ_BIT else 0)) |||
      (if write then FILE_HANDLE_WRITE_BIT else 0), c + 1)
  else none

/-- `CultivateFS::check_file_handle_read`. -/
def check_file_handle_read (fh : Nat) : Bool := fh &&& FILE_HANDLE_READ_BIT != 0

/-- `CultivateFS::check_file_handle_write`. -/
def check_file_handle_write (fh : Nat) : Bool := fh &&& FILE_HANDLE_WRITE_BIT != 0

/-- `CultivateFS::get_inode` (errno `ENOENT` when absent). -/
def fsGetInode (ms : MountState) (ino : Nat) : Except Nat InodeAttributes :=
  match ms.get_inode ino with
  | some a => .ok a
  | none => .error ENOENT

/-- `CultivateFS::get_directory_content` (errno `ENOENT` when absent). -/
def fsGetDir (ms : MountState) (ino : Nat) : Except Nat Dir :=
  match ms.get_directory_content ino with
  | some d => .ok d
  | none => .error ENOENT

/-- `CultivateFS::lookup_name`. -/
def lookup_name (ms : MountState) (parent : Nat) (name : Bytes) :
    Except Nat InodeAttributes :=
  match fsGetDir ms parent with
  | .error e => .error e
  | .ok entries =>
    match alget name entries with
    | some (ino, _) => fsGetInode ms ino
    | none => .error ENOENT

/-- `CultivateFS::read`: reject handles without the read bit; fetch the
backing file (panics when the inode has no hash or the object is absent);
`read_size = min(size, (file_size - offset) as u32)`; the source then
reads from file position 0 into `buffer[offset..]`, so the reply is
`offset` zero bytes followed by the first `read_size - offset` bytes of
the file — and the slice `buffer[offset..]` panics when
`offset > read_size`. -/
def fsRead (s : Store) (ms : MountState) (ino fh offset size : Nat) :
    Option (Except Nat Bytes) :=
  if !check_file_handle_read fh then some (.error EACCES)
  else
    match ms.get_inode ino with
    | none => some (.error ENOENT)
    | some node =>
      match node.hash with
      | none => none
      | some h =>
        match s.get_file h with
        | none => none
        | some raw =>
          let fileSize := raw.content.length
          let readSize := Nat.min size ((fileSize - offset) % 2 ^ 32)
          if offset > readSize then none
          else some (.ok (List.replicate offset 0 ++ raw.content.take (readSize - offset)))

/-- `CultivateFS::write`: reject handles without the write bit; absent
inode replies `EBADF`; load current content (or empty; a dangling hash
panics), overlay `data` at `offset` (a cursor past the end zero-fills),
rehash, store the new file object, update the inode's hash, size and
times. -/
def fsWrite (s : Store) (ms : MountState) (ino fh offset : Nat) (data : Bytes)
    (now : Int × Nat) : Option ((Store × MountState) × Except Nat Nat) :=
  if !check_file_handle_write fh then some ((s, ms), .error EACCES)
  else
    match ms.get_inode ino with
    | none => some ((s, ms), .error EBADF)
    | some attrs =>
      let file? : Option File :=
        match attrs.hash with
        | some h => s.get_file h
        | none => some (File.mk [])
      match file? with
      | none => none
      | some file =>
        let attrs1 := { attrs with last_modified := now, last_metadata_changed := now }
        let attrs2 :=
          if data.length + offset > attrs1.size then { attrs1 with size := data.length + offset }
          else attrs1
        let content := file.content.take offset ++
          List.replicate (offset - file.content.length) 0 ++ data ++
          file.content.drop (offset + data.length)
        let newFile := File.mk content
        let hash := newFile.getHash
        let s1 := { s with files := alset hash newFile s.files }
        let attrs3 := { attrs2 with hash := some hash }
        some ((s1, ms.set_inode attrs3), .ok data.length)

/-- `CultivateFS::insert_link`. -/
def insert_link (ms : MountState) (req : Req) (parent : Nat) (name : Bytes)
    (ino : Nat) (kind : FileKind) (now : Int × Nat) :
    Option (MountState × Except Nat Unit) :=
  if (lookup_name ms parent name).isOk then some (ms, .error EEXIST)
  else
    match ms.get_inode parent with
    | none => some (ms, .error ENOENT)
    | some pattrs =>
      if !check_access pattrs.uid pattrs.gid pattrs.mode req.uid req.gid W_OK then
        some (ms, .error EACCES)
      else
        let ms1 := ms.set_inode { pattrs with last_modified := now, last_metadata_changed := now }
        match ms1.get_directory_content parent with
        | none => none
        | some entries =>
          some (ms1.set_directory_content parent (alset name (ino, kind) entries), .ok ())

/-- `CultivateFS::mkdir`: existence and access checks, parent time
updates, a fresh directory inode (uid/gid from the request and `S_ISGID`
inheritance), the entry added to the parent, and the new directory seeded
with `"."` and `".."` (the source then redundantly re-inserts the parent
entry). -/
def fsMkdir (ms : MountState) (req : Req) (parent : Nat) (name : Bytes) (mode : Nat)
    (now : Int × Nat) : Option (MountState × Except Nat InodeAttributes) :=
  if (lookup_name ms parent name).isOk then some (ms, .error EEXIST)
  else
    match ms.get_inode parent with
    | none => some (ms, .error ENOENT)
    | some pattrs =>
      if !check_access pattrs.uid pattrs.gid pattrs.mode req.uid req.gid W_OK then
        some (ms, .error EACCES)
      else
        let pattrs1 := { pattrs with last_modified := now, last_metadata_changed := now }
        let ms1 := ms.set_inode pattrs1
        let r := ms1.create_new_node .directory now
        let attrs := { r.1 with uid := req.uid, gid := creation_gid pattrs1 req.gid }
        let ms2 := r.2.set_inode attrs
        match ms2.get_directory_content parent with
        | none => none
        | some entries =>
          let ms3 := ms2.set_directory_content parent
            (alset name (attrs.inode, attrs.kind) entries)
          let mydir : Dir :=
            alset dotdotB (parent, .directory) (alset dotB (attrs.inode, .directory) [])
          let ms4 := ms3.set_directory_content attrs.inode mydir
          match ms4.get_directory_content parent with
          | none => none
          | some entries2 =>
            some (ms4.set_directory_content parent
              (alset name (attrs.inode, .directory) entries2), .ok attrs)

/-- `fs.rs` `as_file_kind` (`unimplemented!` for other types: `none`). -/
def as_file_kind (mode : Nat) : Option FileKind :=
  let m := mode &&& S_IFMT
  if m = S_IFREG then some .file
  else if m = S_IFLNK then some .symlink
  else if m = S_IFDIR then some .directory
  else none

/-- `CultivateFS::mknod`: only regular files, symlinks and directories
pass the type filter (`ENOSYS` otherwise); no access control (the source
has a TODO); creates the node and links it into the parent; the final
`assert!(kind != Directory)` panics for directories. -/
def fsMknod (ms : MountState) (req : Req) (parent : Nat) (name : Bytes) (mode : Nat)
    (now : Int × Nat) : Option (MountState × Except Nat InodeAttributes) :=
  let file_type := mode &&& S_IFMT
  if ¬(file_type = S_IFREG ∨ file_type = S_IFLNK ∨ file_type = S_IFDIR) then
    some (ms, .error ENOSYS)
  else if (lookup_name ms parent name).isOk then some (ms, .error EEXIST)
  else
    match ms.get_inode parent with
    | none => some (ms, .error ENOENT)
    | some pattrs =>
      let pattrs1 := { pattrs with last_modified := now, last_metadata_changed := now }
      let ms1 := ms.set_inode pattrs1
      match as_file_kind mode with
      | none => none
      | some kind =>
        let r := ms1.create_new_node kind now
        let attrs := { r.1 with uid := req.uid, gid := creation_gid pattrs1 req.gid }
        let ms2 := r.2.set_inode attrs
        match ms2.get_directory_content parent with
        | none => none
        | some entries =>
          let ms3 := ms2.set_directory_content parent
            (alset name (attrs.inode, attrs.kind) entries)
          if kind = .directory then none
          else some (ms3, .ok attrs)

/-- `CultivateFS::symlink`: parent access check and time update, a fresh
symlink inode with the caller's uid/gid and the target length as size,
`insert_link` into the parent, then the new Symlink object is hashed into
the store and the inode's backing hash set. -/
def fsSymlink (s : Store) (ms : MountState) (req : Req) (parent : Nat)
    (link_name : Bytes) (target : Bytes) (now : Int × Nat) :
    Option ((Store × MountState) × Except Nat InodeAttributes) :=
  match ms.get_inode parent with
  | none => some ((s, ms), .error ENOENT)
  | some pattrs =>
    if !check_access pattrs.uid pattrs.gid pattrs.mode req.uid req.gid W_OK then
      some ((s, ms), .error EACCES)
    else
      let pattrs1 := { pattrs with last_modified := now, last_metadata_changed := now }
      let ms1 := ms.set_inode pattrs1
      let r := ms1.create_new_node .symlink now
      let attrs :=
        { r.1 with
            uid := req.uid, gid := creation_gid pattrs1 req.gid, size := target.length }
      match insert_link r.2 req parent link_name attrs.inode .symlink now with
      | none => none
      | some (ms3, .error e) => some ((s, ms3), .error e)
      | some (ms3, .ok _) =>
        let symlink : Symlink := Symlink.mk target
        let hash := symlink.getHash
        let s1 := { s with symlinks := alset hash symlink s.symlinks }
        let attrs2 := { attrs with hash := some hash }
        some ((s1, ms3.set_inode attrs2), .ok attrs2)

/-- `CultivateFS::rename`.  `RENAME_EXCHANGE` is `todo!()`; overwriting a
directory target reaches another `todo!()`; overwriting a file target
removes it from the target directory and decrements its hardlinks; the
entry moves from the source to the target descriptor, times are updated,
and a moved directory's `".."` is repointed at the new parent. -/
def fsRename (ms : MountState) (req : Req) (parent : Nat) (name : Bytes)
    (new_parent : Nat) (new_name : Bytes) (flags : Nat) (now : Int × Nat) :
    Option (MountState × Except Nat Unit) :=
  match lookup_name ms parent name with
  | .error e => some (ms, .error e)
  | .ok inode_attrs =>
  match ms.get_inode parent with
  | none => some (ms, .error ENOENT)
  | some parent_attrs =>
  if !check_access parent_attrs.uid parent_attrs.gid parent_attrs.mode req.uid req.gid W_OK
  then some (ms, .error EACCES)
  else
  match ms.get_inode new_parent with
  | none => some (ms, .error ENOENT)
  | some new_parent_attrs =>
  if !check_access new_parent_attrs.uid new_parent_attrs.gid new_parent_attrs.mode
    req.uid req.gid W_OK then some (ms, .error EACCES)
  else if flags &&& RENAME_EXCHANGE ≠ 0 then none
  else
  let overwriteCheck : Option (Option Nat) :=
    match lookup_name ms new_parent new_name with
    | .ok new_name_attrs =>
      if new_name_attrs.kind = FileKind.directory then
        match ms.get_directory_content new_name_attrs.inode with
        | none => none
        | some dcontent => if dcontent.length > 2 then some (some ENOTEMPTY) else some none
      else some none
    | .error _ => some none
  match overwriteCheck with
  | none => none
  | some (some e) => some (ms, .error e)
  | some none =>
  if inode_attrs.kind = FileKind.directory ∧ parent ≠ new_parent ∧
      !check_access inode_attrs.uid inode_attrs.gid inode_attrs.mode req.uid req.gid W_OK
  then some (ms, .error EACCES)
  else
  let unlinked : Option MountState :=
    match lookup_name ms new_parent new_name with
    | .ok existing =>
      match ms.get_directory_content new_parent with
      | none => none
      | some entries =>
        let msA := ms.set_directory_content new_parent (alremove new_name entries)
        if existing.kind = FileKind.directory then none
        else some (msA.set_inode
          { existing with
              hardlinks := existing.hardlinks - 1, last_metadata_changed := now })
    | .error _ => some ms
  match unlinked with
  | none => none
  | some ms1 =>
  match ms1.get_directory_content parent with
  | none => none
  | some src_entries =>
  let ms2 := ms1.set_directory_content parent (alremove name src_entries)
  match ms2.get_directory_content new_parent with
  | none => none
  | some dst_entries =>
  let ms3 := ms2.set_directory_content new_parent
    (alset new_name (inode_attrs.inode, inode_attrs.kind) dst_entries)
  let ms4 := ms3.set_inode
    { parent_attrs with last_modified := now, last_metadata_changed := now }
  let ms5 := ms4.set_inode
    { new_parent_attrs with last_modified := now, last_metadata_changed := now }
  let ms6 := ms5.set_inode { inode_attrs with last_metadata_changed := now }
  if inode_attrs.kind = FileKind.directory then
    match ms6.get_directory_content inode_attrs.inode with
    | none => none
    | some own_entries =>
      some (ms6.set_directory_content inode_attrs.inode
        (alset dotdotB (new_parent, FileKind.directory) own_entries), .ok ())
  else some (ms6, .ok ())

/-! ## Checkout state (claim C10) -/

/-- `BackendService::get_checkout_state` body: `mount.get_op_id()` and
`mount.get_workspace_id()` both unwrap (`none` = panic). -/
def getCheckoutState (st : MountState) : Option (Bytes × Bytes) :=
  match st.get_op_id with
  | none => none
  | some o =>
    match st.get_workspace_id with
    | none => none
    | some w => some (o, w)

/-- `BackendService::set_checkout_state` body: `set_op_id` then
`set_workspace_id`. -/
def setCheckoutState (st : MountState) (op ws : Bytes) : MountState :=
  (st.set_op_id op).set_workspace_id ws

/-- C10: on a fresh mount store (as produced by `initialize_repo`) both
checkout scalars are `None`, so the `get_checkout_state` RPC panics by
unwrapping; a non-panicking call requires both scalars set, and after
`set_checkout_state` the call returns them. -/
theorem c10_get_checkout_state_panics (s : Store) :
    (MountState.new s).get_op_id = none ∧
    (MountState.new s).get_workspace_id = none ∧
    getCheckoutState (MountState.new s) = none ∧
    (∀ st : MountState, (getCheckoutState st).isSome →
      st.op_id.isSome ∧ st.workspace_id.isSome) ∧
    (∀ (st : MountState) (op ws : Bytes),
      getCheckoutState (setCheckoutState st op ws) = some (op, ws)) := by
  refine ⟨rfl, rfl, rfl, ?_, ?_⟩
  · intro st h
    rw [getCheckoutState] at h
    constructor
    · cases hop : st.op_id with
      | none =>
        rw [MountState.get_op_id, hop] at h
        simp at h
      | some o => simp
    · cases hws : st.workspace_id with
      | none =>
        cases hop : st.op_id with
        | none => rw [MountState.get_op_id, hop] at h; simp at h
        | some o =>
          rw [MountState.get_op_id, hop, MountState.get_workspace_id, hws] at h
          simp at h
      | some w => simp
  · intro st op ws
    rfl

/-- C10 witness: the non-panic characterisation at a concrete mount
store. -/
theorem c10_get_checkout_state_panics_witness :
    (getCheckoutState (setCheckoutState (MountState.new Store.new) [1] [2])).isSome →
      (setCheckoutState (MountState.new Store.new) [1] [2]).op_id.isSome ∧
        (setCheckoutState (MountState.new Store.new) [1] [2]).workspace_id.isSome :=
  (c10_get_checkout_state_panics Store.new).2.2.2.1
    (setCheckoutState (MountState.new Store.new) [1] [2])

/-! ## File-handle encoding (claim C8) -/

theorem and_lt_pow (a x k : Nat) (h : a < 2 ^ k) : a &&& x = a &&& (x % 2 ^ k) := by
  apply Nat.eq_of_testBit_eq
  intro i
  simp only [Nat.testBit_and, Nat.testBit_mod_two_pow]
  by_cases hi : i < k
  · simp [hi]
  · have ha : a.testBit i = false := Nat.testBit_lt_two_pow
      (lt_of_lt_of_le h (Nat.pow_le_pow_right (by norm_num) (by omega)))
    simp [ha, hi]

theorem and_two_pow_eq_zero_of_testBit (fh n : Nat) (h : fh.testBit n = false) :
    fh &&& 2 ^ n = 0 := by
  apply Nat.eq_of_testBit_eq
  intro i
  simp only [Nat.testBit_and, Nat.zero_testBit]
  by_cases hi : n = i
  · subst hi
    simp [h]
  · simp [Nat.testBit_two_pow_of_ne hi]

/-- C8: a file handle from `allocate_next_file_handle` is the fresh
counter value (recoverable from the low 62 bits, with the counter
advancing by one) with bit 63 set iff read was granted and bit 62 set iff
write was granted; `read` with bit 63 clear replies `EACCES`, and `write`
with bit 62 clear replies `EACCES`. -/
theorem c8_file_handle_bits (c : Nat) (r w : Bool) (hc : c < 2 ^ 62)
    (s : Store) (ms : MountState) (ino offset size : Nat) (data : Bytes)
    (now : Int × Nat) :
    (∃ fh, allocate_next_file_handle c r w = some (fh, c + 1) ∧
      fh.testBit 63 = r ∧ fh.testBit 62 = w ∧ fh &&& (2 ^ 62 - 1) = c) ∧
    (∀ fh, fh.testBit 63 = false → fsRead s ms ino fh offset size = some (.error EACCES)) ∧
    (∀ fh, fh.testBit 62 = false →
      fsWrite s ms ino fh offset data now = some ((s, ms), .error EACCES)) := by
  have hc63 : c.testBit 63 = false := Nat.testBit_lt_two_pow (lt_trans hc (by norm_num))
  have hc62 : c.testBit 62 = false := Nat.testBit_lt_two_pow hc
  refine ⟨⟨(c ||| (if r then FILE_HANDLE_READ_BIT else 0)) |||
      (if w then FILE_HANDLE_WRITE_BIT else 0), ?_, ?_, ?_, ?_⟩, ?_, ?_⟩
  · rw [allocate_next_file_handle, if_pos]
    show c < Nat.min (2 ^ 63) (2 ^ 62)
    have : Nat.min (2 ^ 63) (2 ^ 62) = 2 ^ 62 := by decide
    omega
  · cases r <;> cases w <;>
      simp [Nat.testBit_lor, hc63, FILE_HANDLE_READ_BIT, FILE_HANDLE_WRITE_BIT] <;>
      decide
  · cases r <;> cases w <;>
      simp [Nat.testBit_lor, hc62, FILE_HANDLE_READ_BIT, FILE_HANDLE_WRITE_BIT] <;>
      decide
  · apply Nat.eq_of_testBit_eq
    intro i
    simp only [Nat.testBit_and, Nat.testBit_lor, Nat.testBit_two_pow_sub_one]
    by_cases hi : i < 62
    · have h63 : Nat.testBit FILE_HANDLE_READ_BIT i = false := by
        rw [show FILE_HANDLE_READ_BIT = 2 ^ 63 from rfl]
        exact Nat.testBit_two_pow_of_ne (by omega)
      have h62 : Nat.testBit FILE_HANDLE_WRITE_BIT i = false := by
        rw [show FILE_HANDLE_WRITE_BIT = 2 ^ 62 from rfl]
        exact Nat.testBit_two_pow_of_ne (by omega)
      cases r <;> cases w <;> simp [hi, h63, h62]
    · have hci : c.testBit i = false := Nat.testBit_lt_two_pow
        (lt_of_lt_of_le hc (Nat.pow_le_pow_right (by norm_num) (by omega)))
      simp [hi, hci]
  · intro fh h63
    have hand : fh &&& FILE_HANDLE_READ_BIT = 0 :=
      and_two_pow_eq_zero_of_testBit fh 63 h63
    rw [fsRead, check_file_handle_read, hand]
    rfl
  · intro fh h62
    have hand : fh &&& FILE_HANDLE_WRITE_BIT = 0 :=
      and_two_pow_eq_zero_of_testBit fh 62 h62
    rw [fsWrite, check_file_handle_write, hand]
    rfl

/-- C8 witness: the handle facts at counter 5 with read granted and write
denied. -/
theorem c8_file_handle_bits_witness :
    (∃ fh, allocate_next_file_handle 5 true false = some (fh, 6) ∧
      fh.testBit 63 = true ∧ fh.testBit 62 = false ∧ fh &&& (2 ^ 62 - 1) = 5) ∧
    (∀ fh, fh.testBit 63 = false →
      fsRead Store.new (MountState.new Store.new) 1 fh 0 4 = some (.error EACCES)) ∧
    (∀ fh, fh.testBit 62 = false →
      fsWrite Store.new (MountState.new Store.new) 1 fh 0 [7] (0, 0) =
        some ((Store.new, MountState.new Store.new), .error EACCES)) :=
  c8_file_handle_bits 5 true false (by norm_num) Store.new (MountState.new Store.new)
    1 0 4 [7] (0, 0)

/-! ## The read-offset defect (claim C6) -/

/-- A store holding one four-byte file. -/
def c6Store : Store :=
  { files := [([5], File.mk [1, 2, 3, 4])], symlinks := [], trees := [],
    empty_tree_id := emptyTreeId }

/-- A mount state whose inode 2 is backed by that file. -/
def c6Mount : MountState :=
  { nodes := [(2, { InodeAttributes.new 2 .file 4 (0, 0) with hash := some [5] })],
    directories := [], next_inode := 3, op_id := none, workspace_id := none,
    tree_id := emptyTreeId }

/-- C6: reading 2 bytes at offset 1 of the file `[1,2,3,4]` through a
read-permitted handle replies `[0, 1]` — a zero byte followed by bytes
from the start of the file — instead of the specified `[2, 3]` (the file
bytes in `[offset, offset+size)`). -/
theorem c6_read_offset_defect :
    fsRead c6Store c6Mount 2 (2 ^ 63) 1 2 = some (.ok [0, 1]) ∧
      ((File.mk [1, 2, 3, 4]).content.drop 1).take 2 = [2, 3] ∧
      ([0, 1] : Bytes) ≠ [2, 3] := by
  refine ⟨rfl, rfl, by decide⟩

/-! ## Access check (claim C9) -/

theorem mod_two_eq_one_iff_testBit (n k : Nat) :
    n.testBit k = true ↔ (n >>> k) % 2 = 1 := by
  rw [Nat.testBit_to_div_mod, Nat.shiftRight_eq_div_pow]
  simp

theorem check_access_subtract_chain (a x y z : Nat) (ha : a < 2) :
    ((a - (a &&& x) - ((a - (a &&& x)) &&& y) -
      ((a - (a &&& x) - ((a - (a &&& x)) &&& y)) &&& z) == 0) = true) ↔
    (a = 1 → (x % 2 = 1 ∨ y % 2 = 1 ∨ z % 2 = 1)) := by
  interval_cases a
  · simp
  · rcases Nat.mod_two_eq_zero_or_one x with hx | hx <;>
      rcases Nat.mod_two_eq_zero_or_one y with hy | hy <;>
        rcases Nat.mod_two_eq_zero_or_one z with hz | hz <;>
          simp [Nat.one_and_eq_mod_two, hx, hy, hz]

theorem check_access_triple_chain (m t : Nat) (hm : m < 8) (ht : t < 8) :
    (((m - (m &&& t)) == 0) = true) ↔ m &&& t = m := by
  have key : ∀ m : Nat, m < 8 → ∀ t : Nat, t < 8 →
      (((m - (m &&& t)) == 0) = true ↔ m &&& t = m) := by decide
  exact key m hm t ht

/-- C9: `check_access` grants whenever the mask is `F_OK` (0); for root
it grants read and write unconditionally and execute iff some execute bit
of the mode is set; otherwise it selects the owner, group or other
permission triple and grants iff every requested bit is present in it.
Stated for masks that are combinations of `R_OK|W_OK|X_OK` (`mask < 8`). -/
theorem c9_check_access_spec (file_uid file_gid file_mode uid gid mask : Nat)
    (hmask : mask < 8) :
    (check_access file_uid file_gid file_mode uid gid mask = true ↔
      (if mask = 0 then True
       else if uid = 0 then
         (mask.testBit 0 = true →
           (file_mode.testBit 6 = true ∨ file_mode.testBit 3 = true ∨
             file_mode.testBit 0 = true))
       else
         mask &&&
           (if uid = file_uid then (file_mode >>> 6) % 8
            else if gid = file_gid then (file_mode >>> 3) % 8
            else file_mode % 8) = mask)) := by
  have h8 : (8 : Nat) = 2 ^ 3 := by norm_num
  have hmask' : mask < 2 ^ 3 := h8 ▸ hmask
  rw [check_access]
  by_cases h0 : mask = 0
  · simp [h0]
  · rw [if_neg h0, if_neg h0]
    by_cases hroot : uid = 0
    · rw [if_pos hroot, if_pos hroot]
      have ha : mask &&& X_OK < 2 := by
        rw [X_OK, Nat.and_one_is_mod]
        exact Nat.mod_lt _ (by norm_num)
      rw [check_access_subtract_chain _ _ _ _ ha]
      rw [X_OK, Nat.and_one_is_mod]
      constructor
      · intro h hbit
        have h1 : mask % 2 = 1 := (mod_two_eq_one_iff_testBit mask 0).mp (by simpa using hbit)
        rcases h h1 with h6 | h3 | hz
        · exact Or.inl ((mod_two_eq_one_iff_testBit file_mode 6).mpr h6)
        · exact Or.inr (Or.inl ((mod_two_eq_one_iff_testBit file_mode 3).mpr h3))
        · exact Or.inr (Or.inr ((mod_two_eq_one_iff_testBit file_mode 0).mpr
            (by simpa using hz)))
      · intro h h1
        have hbit : mask.testBit 0 = true := (mod_two_eq_one_iff_testBit mask 0).mpr
          (by simpa using h1)
        rcases h hbit with h6 | h3 | h00
        · exact Or.inl ((mod_two_eq_one_iff_testBit file_mode 6).mp h6)
        · exact Or.inr (Or.inl ((mod_two_eq_one_iff_testBit file_mode 3).mp h3))
        · exact Or.inr (Or.inr (by simpa using
            (mod_two_eq_one_iff_testBit file_mode 0).mp h00))
    · rw [if_neg hroot, if_neg hroot]
      by_cases hown : uid = file_uid
      · rw [if_pos hown, if_pos hown, and_lt_pow mask _ 3 hmask']
        exact check_access_triple_chain mask _ hmask (h8 ▸ Nat.mod_lt _ (by norm_num))
      · rw [if_neg hown, if_neg hown]
        by_cases hgrp : gid = file_gid
        · rw [if_pos hgrp, if_pos hgrp, and_lt_pow mask _ 3 hmask']
          exact check_access_triple_chain mask _ hmask (h8 ▸ Nat.mod_lt _ (by norm_num))
        · rw [if_neg hgrp, if_neg hgrp, and_lt_pow mask _ 3 hmask']
          exact check_access_triple_chain mask _ hmask (h8 ▸ Nat.mod_lt _ (by norm_num))

/-- C9 witness: the equivalence at a concrete owner-read request. -/
theorem c9_check_access_spec_witness :
    check_access 1000 1000 420 1000 1000 R_OK = true ↔
      (if R_OK = 0 then True
       else if (1000 : Nat) = 0 then
         (R_OK.testBit 0 = true →
           ((420 : Nat).testBit 6 = true ∨ (420 : Nat).testBit 3 = true ∨
             (420 : Nat).testBit 0 = true))
       else
         R_OK &&&
           (if (1000 : Nat) = 1000 then ((420 : Nat) >>> 6) % 8
            else if (1000 : Nat) = 1000 then ((420 : Nat) >>> 3) % 8
            else (420 : Nat) % 8) = R_OK) :=
  c9_check_access_spec 1000 1000 420 1000 1000 R_OK (by norm_num [R_OK])

/-! ## The `"."`/`".."` book-keeping invariant (claim C7) -/

theorem alget_alremove_ne {κ α : Type} [DecidableEq κ] (k k' : κ) (l : List (κ × α))
    (h : k ≠ k') : alget k' (alremove k l) = alget k' l := by
  induction l with
  | nil => rfl
  | cons hd tl ih =>
    obtain ⟨a, b⟩ := hd
    by_cases h' : a = k
    · subst h'
      simp [alremove, alget, h]
    · simp [alremove, alget, h', ih]

theorem dotB_ne_dotdotB : dotB ≠ dotdotB := by decide

/-- `insert_link` preserves the `"."` invariant when the linked name is
not `"."`. -/
theorem insert_link_DotOk {ms : MountState} {req : Req} {parent : Nat} {name : Bytes}
    {ino : Nat} {kind : FileKind} {now : Int × Nat} {ms' : MountState}
    {r : Except Nat Unit} (h : insert_link ms req parent name ino kind now = some (ms', r))
    (hD : DotOk ms) (hname : name ≠ dotB) : DotOk ms' := by
  rw [insert_link] at h
  split at h
  · cases h
    exact hD
  · split at h
    · cases h
      exact hD
    · split at h
      · cases h
        exact hD
      · dsimp only at h
        split at h
        · cases h
        · rename_i pattrs hpattrs hacc entries hentries
          cases h
          refine DotOk_set_dir hD ?_
          rw [alget_alset_ne name dotB _ entries hname]
          exact hD parent entries hentries

/-- Materialization preserves the `"."` invariant: `insert_tree` seeds
each new descriptor with `"."` (and only `"."`). -/
theorem insertTree_DotOk (s : Store) (now : Int × Nat) (l : List ONode) (ino : Nat)
    (st : MountState) (hres : ForestResolves s l) (hwf : ForestWF l) (hD : DotOk st) :
    DotOk (insertTree s now l ino st) := by
  obtain ⟨-, -, -, -, s5, -, s7⟩ := goForest_spec s now l
    (alset dotB (ino, FileKind.directory) []) st hres hwf
  rw [insertTree]
  refine DotOk_set_dir (DotOk_set_inode (s7 hD)) ?_
  rw [s5 dotB (forestWF_dot_not_mem hwf)]
  exact alget_alset_self _ _ _

/-- `mknod` preserves the `"."` invariant when the linked name is not
`"."`: the only descriptor it touches is the parent's, by insertion. -/
theorem fsMknod_DotOk {ms : MountState} {req : Req} {parent : Nat} {name : Bytes}
    {mode : Nat} {now : Int × Nat} {ms' : MountState} {r : Except Nat InodeAttributes}
    (hD : DotOk ms) (hname : name ≠ dotB)
    (h : fsMknod ms req parent name mode now = some (ms', r)) : DotOk ms' := by
  rw [fsMknod] at h
  dsimp only at h
  split at h
  · cases h
    exact hD
  · split at h
    · cases h
      exact hD
    · split at h
      · cases h
        exact hD
      · rename_i pattrs hpattrs
        split at h
        · cases h
        · rename_i kind hkind
          split at h
          · cases h
          · rename_i entries hentries
            split at h
            · cases h
            · cases h
              refine DotOk_set_dir hD ?_
              rw [alget_alset_ne name dotB _ entries hname]
              exact hD parent entries hentries

/-- The descriptor updates `mkdir` performs, abstracted over the state it
reaches after the inode updates: insert the child into the parent, store
the seeded child descriptor, re-insert the child into the parent. -/
theorem mkdirCore (ms2 : MountState) (parent ino : Nat) (name : Bytes)
    (k : FileKind) (entries entries2 mydir : Dir) (hD2 : DotOk ms2)
    (hname : name ≠ dotB) (hname2 : name ≠ dotdotB)
    (hmydot : alget dotB mydir = some (ino, FileKind.directory))
    (hmydotdot : alget dotdotB mydir = some (parent, FileKind.directory))
    (hentries : ms2.get_directory_content parent = some entries)
    (hentries2 : ((ms2.set_directory_content parent
        (alset name (ino, k) entries)).set_directory_content ino
        mydir).get_directory_content parent = some entries2) :
    DotOk (((ms2.set_directory_content parent
        (alset name (ino, k) entries)).set_directory_content ino
        mydir).set_directory_content parent
        (alset name (ino, FileKind.directory) entries2)) ∧
    ∃ d, (((ms2.set_directory_content parent
        (alset name (ino, k) entries)).set_directory_content ino
        mydir).set_directory_content parent
        (alset name (ino, FileKind.directory) entries2)).get_directory_content ino = some d ∧
      alget dotB d = some (ino, FileKind.directory) ∧
      alget dotdotB d = some (parent, FileKind.directory) := by
  set ms3 := ms2.set_directory_content parent (alset name (ino, k) entries) with hms3
  set ms4 := ms3.set_directory_content ino mydir with hms4
  have hD3 : DotOk ms3 := DotOk_set_dir hD2
    (by rw [alget_alset_ne name dotB _ entries hname]; exact hD2 parent entries hentries)
  have hD4 : DotOk ms4 := DotOk_set_dir hD3 hmydot
  have hD5 : DotOk (ms4.set_directory_content parent
      (alset name (ino, FileKind.directory) entries2)) := DotOk_set_dir hD4
    (by rw [alget_alset_ne name dotB _ entries2 hname]; exact hD4 parent entries2 hentries2)
  refine ⟨hD5, ?_⟩
  by_cases hpi : parent = ino
  · refine ⟨alset name (ino, FileKind.directory) entries2, ?_, ?_, ?_⟩
    · rw [MountState.get_dir_set_dir]
      exact if_pos hpi
    · rw [alget_alset_ne name dotB _ entries2 hname]
      have h4 := hD4 parent entries2 hentries2
      rw [hpi] at h4
      exact h4
    · rw [alget_alset_ne name dotdotB _ entries2 hname2]
      have h2 := hentries2
      rw [hms4, MountState.get_dir_set_dir, if_pos hpi.symm] at h2
      cases h2
      exact hmydotdot
  · refine ⟨mydir, ?_, hmydot, hmydotdot⟩
    rw [MountState.get_dir_set_dir, if_neg hpi, hms4, MountState.get_dir_set_dir, if_pos rfl]

/-- `mkdir` preserves the `"."` invariant and seeds the new directory
with `"."` mapped to itself and `".."` mapped to the parent. -/
theorem fsMkdir_DotOk {ms : MountState} {req : Req} {parent : Nat} {name : Bytes}
    {mode : Nat} {now : Int × Nat} {ms' : MountState} {r : Except Nat InodeAttributes}
    (hD : DotOk ms) (hname : name ≠ dotB) (hname2 : name ≠ dotdotB)
    (h : fsMkdir ms req parent name mode now = some (ms', r)) :
    DotOk ms' ∧ ∀ a, r = .ok a →
      ∃ d, ms'.get_directory_content a.inode = some d ∧
        alget dotB d = some (a.inode, FileKind.directory) ∧
        alget dotdotB d = some (parent, FileKind.directory) := by
  rw [fsMkdir] at h
  split at h
  · cases h
    exact ⟨hD, by intro a ha; cases ha⟩
  · split at h
    · cases h
      exact ⟨hD, by intro a ha; cases ha⟩
    · rename_i pattrs hpattrs
      split at h
      · cases h
        exact ⟨hD, by intro a ha; cases ha⟩
      · dsimp only at h
        split at h
        · cases h
        · rename_i entries hentries
          split at h
          · cases h
          · rename_i entries2 hentries2
            cases h
            have core := mkdirCore _ parent _ name _ entries entries2 _ hD hname hname2
              (by
                rw [alget_alset_ne dotdotB dotB _ _ (by decide)]
                exact alget_alset_self _ _ _)
              (alget_alset_self _ _ _) hentries hentries2
            refine ⟨core.1, ?_⟩
            intro a ha
            cases ha
            exact core.2

/-- `symlink` preserves the `"."` invariant when the link name is not
`"."`: the only descriptor update is `insert_link` into the parent. -/
theorem fsSymlink_DotOk {s : Store} {ms : MountState} {req : Req} {parent : Nat}
    {link_name target : Bytes} {now : Int × Nat}
    {p : (Store × MountState) × Except Nat InodeAttributes}
    (hD : DotOk ms) (hname : link_name ≠ dotB)
    (h : fsSymlink s ms req parent link_name target now = some p) : DotOk p.1.2 := by
  rw [fsSymlink] at h
  split at h
  · cases h
    exact hD
  · rename_i pattrs hpattrs
    split at h
    · cases h
      exact hD
    · dsimp only at h
      split at h
      · cases h
      · rename_i ms3 e hins
        cases h
        exact insert_link_DotOk hins hD hname
      · rename_i ms3 u hins
        cases h
        exact DotOk_set_inode (insert_link_DotOk hins hD hname)

/-- `rename` preserves the `"."` invariant when neither name is `"."`,
and repoints a moved directory's `".."` at the new parent. -/
theorem fsRename_DotOk {ms : MountState} {req : Req} {parent : Nat} {name : Bytes}
    {new_parent : Nat} {new_name : Bytes} {flags : Nat} {now : Int × Nat}
    {ms' : MountState} {r : Except Nat Unit}
    (hD : DotOk ms) (hname : name ≠ dotB) (hnew : new_name ≠ dotB)
    (h : fsRename ms req parent name new_parent new_name flags now = some (ms', r)) :
    DotOk ms' ∧ ∀ ia, lookup_name ms parent name = .ok ia →
      ia.kind = FileKind.directory → r = .ok () →
      ∃ d, ms'.get_directory_content ia.inode = some d ∧
        alget dotdotB d = some (new_parent, FileKind.directory) := by
  rw [fsRename] at h
  split at h
  · cases h
    exact ⟨hD, by intro ia hia hk hr; cases hr⟩
  · rename_i inode_attrs heq
    split at h
    · cases h
      exact ⟨hD, by intro ia hia hk hr; cases hr⟩
    · rename_i parent_attrs hpattrs
      split at h
      · cases h
        exact ⟨hD, by intro ia hia hk hr; cases hr⟩
      · split at h
        · cases h
          exact ⟨hD, by intro ia hia hk hr; cases hr⟩
        · rename_i new_parent_attrs hnpattrs
          split at h
          · cases h
            exact ⟨hD, by intro ia hia hk hr; cases hr⟩
          · split at h
            · cases h
            · try dsimp only at h
              split at h
              · cases h
              · cases h
                exact ⟨hD, by intro ia hia hk hr; cases hr⟩
              · split at h
                · cases h
                  exact ⟨hD, by intro ia hia hk hr; cases hr⟩
                · split at h
                  · cases h
                  · rename_i ms1 hunl
                    have hD1 : DotOk ms1 := by
                      split at hunl
                      · rename_i existing hex
                        split at hunl
                        · cases hunl
                        · rename_i entries hent
                          split at hunl
                          · cases hunl
                          · cases hunl
                            refine DotOk_set_inode (DotOk_set_dir hD ?_)
                            rw [alget_alremove_ne new_name dotB entries hnew]
                            exact hD new_parent entries hent
                      · cases hunl
                        exact hD
                    split at h
                    · cases h
                    · rename_i src_entries hsrc
                      try dsimp only at h
                      split at h
                      · cases h
                      · rename_i dst_entries hdst
                        have hD2 : DotOk (ms1.set_directory_content parent
                            (alremove name src_entries)) := by
                          refine DotOk_set_dir hD1 ?_
                          rw [alget_alremove_ne name dotB src_entries hname]
                          exact hD1 parent src_entries hsrc
                        have hD3 : DotOk ((ms1.set_directory_content parent
                            (alremove name src_entries)).set_directory_content new_parent
                            (alset new_name (inode_attrs.inode, inode_attrs.kind)
                              dst_entries)) := by
                          refine DotOk_set_dir hD2 ?_
                          rw [alget_alset_ne new_name dotB _ dst_entries hnew]
                          exact hD2 new_parent dst_entries hdst
                        split at h
                        · rename_i hkind
                          split at h
                          · cases h
                          · rename_i own_entries hown
                            cases h
                            constructor
                            · refine DotOk_set_dir hD3 ?_
                              rw [alget_alset_ne dotdotB dotB _ own_entries
                                (by decide)]
                              exact hD3 inode_attrs.inode own_entries hown
                            · intro ia hia hk hr
                              injection heq.symm.trans hia with hia2
                              subst hia2
                              refine ⟨alset dotdotB (new_parent, FileKind.directory)
                                own_entries, ?_, alget_alset_self _ _ _⟩
                              rw [MountState.get_dir_set_dir]
                              exact if_pos rfl
                        · rename_i hkind
                          cases h
                          refine ⟨hD3, ?_⟩
                          intro ia hia hk hr
                          injection heq.symm.trans hia with hia2
                          subst hia2
                          exact absurd hk hkind

set_option maxRecDepth 4000 in
/-- C7 counterexample: materializing `c5Forest` (whose directory `"d"` is
assigned inode 2 ≠ 1, a non-root directory) yields a descriptor for
inode 2 holding only `"."` and the file entry — no `".."` entry at all. -/
theorem c7_materialized_dir_lacks_dotdot :
    ((setRootTree c5Store (0, 0) c5Forest (MountState.new c5Store)).get_inode 2).map
        InodeAttributes.kind = some FileKind.directory ∧
    (setRootTree c5Store (0, 0) c5Forest (MountState.new c5Store)).get_directory_content 2 =
      some [(dotB, (2, FileKind.directory)), ([102], (3, FileKind.file))] ∧
    alget dotdotB [(dotB, (2, FileKind.directory)), ([102], (3, FileKind.file))] = none ∧
    (2 : Nat) ≠ 1 := by
  refine ⟨?_, ?_, by decide, by decide⟩ <;>
    simp [setRootTree, insertTree, goForest, insertFileOp, insertSymlinkOp, c5Store, c5Forest,
      MountState.new, MountState.allocate_inode, MountState.set_inode, MountState.get_inode,
      MountState.set_directory_content, MountState.get_directory_content, Store.get_file,
      Store.get_symlink, alget, alset, dotB, dotdotB, InodeAttributes.new, emptyTreeId,
      Store.get_empty_tree_id]

instance : Inhabited MountState := ⟨MountState.new default⟩

instance : Inhabited InodeAttributes := ⟨InodeAttributes.new 0 FileKind.file 0 (0, 0)⟩

instance : Inhabited (Except Nat InodeAttributes) := ⟨.error 0⟩

instance : Inhabited (Except Nat Unit) := ⟨.error 0⟩

/-- A mount holding just a root directory (inode 1, mode `0o777`), as
`set_root_tree` of an empty tree would leave it. -/
def c7Mount : MountState :=
  ⟨[(1, InodeAttributes.new 1 FileKind.directory 0 (0, 0))],
   [(1, [(dotB, (1, FileKind.directory))])], 2, none, none, []⟩

/-- A mount with two sibling directories `"a"` (inode 2) and `"b"`
(inode 3) under the root, both carrying `"."` and `".."`. -/
def c7Mount2 : MountState :=
  ⟨[(1, InodeAttributes.new 1 FileKind.directory 0 (0, 0)),
    (2, InodeAttributes.new 2 FileKind.directory 0 (0, 0)),
    (3, InodeAttributes.new 3 FileKind.directory 0 (0, 0))],
   [(1, [(dotB, (1, FileKind.directory)), ([97], (2, FileKind.directory)),
         ([98], (3, FileKind.directory))]),
    (2, [(dotB, (2, FileKind.directory)), (dotdotB, (1, FileKind.directory))]),
    (3, [(dotB, (3, FileKind.directory)), (dotdotB, (1, FileKind.directory))])],
   4, none, none, []⟩

/-- An unprivileged caller. -/
def c7Req : Req := ⟨1000, 1000⟩

theorem DotOk_newMount (s : Store) : DotOk (MountState.new s) := by
  intro ino d h
  simp [MountState.new, MountState.get_directory_content, alget] at h

theorem DotOk_c7Mount : DotOk c7Mount := by
  intro ino d h
  simp only [c7Mount, MountState.get_directory_content, alget] at h
  split at h
  · rename_i h1
    cases h
    subst h1
    decide
  · cases h

theorem DotOk_c7Mount2 : DotOk c7Mount2 := by
  intro ino d h
  simp only [c7Mount2, MountState.get_directory_content, alget] at h
  split at h
  · rename_i h1
    cases h
    subst h1
    decide
  · split at h
    · rename_i h1
      cases h
      subst h1
      decide
    · split at h
      · rename_i h1
        cases h
        subst h1
        decide
      · cases h

/-- C7 (amended): the `"."` half of the invariant — every descriptor maps
`"."` to its own inode — is preserved by tree materialization and by
`mkdir`, `mknod`, `symlink` and `rename` (for entry names other than
`"."`/`".."`, which the kernel never passes to these operations).  The
`".."` half holds only for the operations that maintain it: `mkdir` seeds
the new directory with `"."` → itself and `".."` → the parent, and
`rename` repoints a moved directory's `".."` at the new parent;
materialization (`insert_tree`/`set_root_tree`) seeds `"."` only and
leaves every materialized non-root directory without `".."` (see the
counterexample). -/
theorem c7_dot_invariant_amended :
    (∀ (s : Store) (now : Int × Nat) (l : List ONode) (ino : Nat) (st : MountState),
        ForestResolves s l → ForestWF l → DotOk st → DotOk (insertTree s now l ino st)) ∧
    (∀ (ms : MountState) (req : Req) (parent : Nat) (name : Bytes) (mode : Nat)
        (now : Int × Nat) (ms' : MountState) (r : Except Nat InodeAttributes),
        DotOk ms → name ≠ dotB → name ≠ dotdotB →
        fsMkdir ms req parent name mode now = some (ms', r) →
        DotOk ms' ∧ ∀ a, r = .ok a →
          ∃ d, ms'.get_directory_content a.inode = some d ∧
            alget dotB d = some (a.inode, FileKind.directory) ∧
            alget dotdotB d = some (parent, FileKind.directory)) ∧
    (∀ (ms : MountState) (req : Req) (parent : Nat) (name : Bytes) (mode : Nat)
        (now : Int × Nat) (ms' : MountState) (r : Except Nat InodeAttributes),
        DotOk ms → name ≠ dotB →
        fsMknod ms req parent name mode now = some (ms', r) → DotOk ms') ∧
    (∀ (s : Store) (ms : MountState) (req : Req) (parent : Nat)
        (link_name target : Bytes) (now : Int × Nat)
        (p : (Store × MountState) × Except Nat InodeAttributes),
        DotOk ms → link_name ≠ dotB →
        fsSymlink s ms req parent link_name target now = some p → DotOk p.1.2) ∧
    (∀ (ms : MountState) (req : Req) (parent : Nat) (name : Bytes) (new_parent : Nat)
        (new_name : Bytes) (flags : Nat) (now : Int × Nat) (ms' : MountState)
        (r : Except Nat Unit),
        DotOk ms → name ≠ dotB → new_name ≠ dotB →
        fsRename ms req parent name new_parent new_name flags now = some (ms', r) →
        DotOk ms' ∧ ∀ ia, lookup_name ms parent name = .ok ia →
          ia.kind = FileKind.directory → r = .ok () →
          ∃ d, ms'.get_directory_content ia.inode = some d ∧
            alget dotdotB d = some (new_parent, FileKind.directory)) := by
  refine ⟨insertTree_DotOk, ?_, ?_, ?_, ?_⟩
  · exact fun _ _ _ _ _ _ _ _ hD h1 h2 h => fsMkdir_DotOk hD h1 h2 h
  · exact fun _ _ _ _ _ _ _ _ hD h1 h => fsMknod_DotOk hD h1 h
  · exact fun _ _ _ _ _ _ _ _ hD h1 h => fsSymlink_DotOk hD h1 h
  · exact fun _ _ _ _ _ _ _ _ _ _ hD h1 h2 h => fsRename_DotOk hD h1 h2 h

/-- C7 witness: the amended statement at concrete inputs — materializing
`c5Forest` into a fresh mount, then `mkdir`, `mknod`, `symlink` on a
one-directory mount and a directory `rename` between two parents, with
every hypothesis discharged by computation. -/
theorem c7_dot_invariant_amended_witness :
    DotOk (insertTree c5Store (0, 0) c5Forest 1 (MountState.new c5Store)) ∧
    (DotOk (fsMkdir c7Mount c7Req 1 [97] 493 (0, 0)).get!.1 ∧
      ∃ d, (fsMkdir c7Mount c7Req 1 [97] 493 (0, 0)).get!.1.get_directory_content 2 =
          some d ∧
        alget dotB d = some (2, FileKind.directory) ∧
        alget dotdotB d = some (1, FileKind.directory)) ∧
    DotOk (fsMknod c7Mount c7Req 1 [98] S_IFREG (0, 0)).get!.1 ∧
    DotOk (fsSymlink c5Store c7Mount c7Req 1 [99] [47] (0, 0)).get!.1.2 ∧
    (DotOk (fsRename c7Mount2 c7Req 1 [97] 3 [97] 0 (0, 0)).get!.1 ∧
      ∃ d, (fsRename c7Mount2 c7Req 1 [97] 3 [97] 0 (0, 0)).get!.1.get_directory_content 2 =
          some d ∧
        alget dotdotB d = some (3, FileKind.directory)) := by
  refine ⟨?_, ?_, ?_, ?_, ?_⟩
  · exact c7_dot_invariant_amended.1 c5Store (0, 0) c5Forest 1 (MountState.new c5Store)
      (by simp [c5Forest, ForestResolves, Store.get_file, Store.get_symlink, Store.get_tree,
        c5Store, alget])
      (by simp [c5Forest, ForestWF, dotB, ONode.name])
      (DotOk_newMount c5Store)
  · have h := c7_dot_invariant_amended.2.1 c7Mount c7Req 1 [97] 493 (0, 0)
      (fsMkdir c7Mount c7Req 1 [97] 493 (0, 0)).get!.1
      (fsMkdir c7Mount c7Req 1 [97] 493 (0, 0)).get!.2
      DotOk_c7Mount (by decide) (by decide) rfl
    exact ⟨h.1, h.2 ((fsMkdir c7Mount c7Req 1 [97] 493 (0, 0)).get!.2.toOption.get!) rfl⟩
  · exact (c7_dot_invariant_amended.2.2.1 c7Mount c7Req 1 [98] S_IFREG (0, 0)
      (fsMknod c7Mount c7Req 1 [98] S_IFREG (0, 0)).get!.1
      (fsMknod c7Mount c7Req 1 [98] S_IFREG (0, 0)).get!.2
      DotOk_c7Mount (by decide) rfl)
  · exact (c7_dot_invariant_amended.2.2.2.1 c5Store c7Mount c7Req 1 [99] [47] (0, 0)
      (fsSymlink c5Store c7Mount c7Req 1 [99] [47] (0, 0)).get!
      DotOk_c7Mount (by decide) rfl)
  · have h := c7_dot_invariant_amended.2.2.2.2 c7Mount2 c7Req 1 [97] 3 [97] 0 (0, 0)
      (fsRename c7Mount2 c7Req 1 [97] 3 [97] 0 (0, 0)).get!.1
      (fsRename c7Mount2 c7Req 1 [97] 3 [97] 0 (0, 0)).get!.2
      DotOk_c7Mount2 (by decide) (by decide) rfl
    exact ⟨h.1, h.2 (InodeAttributes.new 2 FileKind.directory 0 (0, 0)) rfl rfl rfl⟩

end Cultivate
